import Mathlib

/-!
Verification of the session-store module of claudecodeui.

The JavaScript source (server/projects.js and server/utils/pathUtils.js) is
shallowly embedded below.  JSON parsing, the filesystem and Node's `path`
library are host facilities; they appear as explicit function parameters or
as already-parsed inputs.  Machine strings are modelled as Lean `String`
(file contents as `List Char`), JS `Map` objects as insertion-ordered
association lists, and JS numbers used as counts/timestamps as `Nat`
(the one fractional comparison `mostRecentCount >= maxCount * 0.25` is
rendered exactly as `4 * mostRecentCount ≥ maxCount`).
-/

namespace ClaudeCodeUI

/-- JS truthiness of an optional string field: `undefined` and `""` are falsy. -/
def strTruthy (o : Option String) : Option String :=
  match o with
  | some s => if s = "" then none else some s
  | none => none

/-- JS `a || d` for an optional numeric field (0 and `undefined` are falsy). -/
def jsOrNat (o : Option Nat) (d : Nat) : Nat :=
  match o with
  | some n => if n = 0 then d else n
  | none => d

/-- Insertion-ordered association-list lookup (JS `Map.get`). -/
def lookupA {β : Type} : List (String × β) → String → Option β
  | [], _ => none
  | (k, v) :: rest, key => if k = key then some v else lookupA rest key

/-- JS `Map.has`. -/
def containsA {β : Type} (l : List (String × β)) (key : String) : Bool :=
  (lookupA l key).isSome

/-- JS `Map.set`: update in place if present, else append (insertion order). -/
def setA {β : Type} : List (String × β) → String → β → List (String × β)
  | [], k, v => [(k, v)]
  | (k0, v0) :: rest, k, v =>
    if k0 = k then (k0, v) :: rest else (k0, v0) :: setA rest k v

/-- Substring test on character lists (JS `String.prototype.includes`). -/
def hasSub (pat : List Char) : List Char → Bool
  | [] => decide (pat = [])
  | c :: rest => pat.isPrefixOf (c :: rest) || hasSub pat rest

/-- JS `t.includes(pat)`. -/
def strIncludes (t pat : String) : Bool :=
  hasSub pat.data t.data

/-- JS `t.startsWith(pre)`. -/
def strStarts (t pre : String) : Bool :=
  pre.data.isPrefixOf t.data

/-! ## Path Normalizer (server/utils/pathUtils.js)

`normalizeFsPathForCompare` bottoms out in Node's `path.resolve` /
`path.normalize`, and `isPathSameOrInside` in `path.relative` /
`path.isAbsolute`; those host functions are passed as parameters `norm`,
`rel`, `isAbs`, and the platform separator as `sep`. -/

/-- Embedding of `isPathSameOrInside` (pathUtils.js lines 56-77): empty
normalized input never matches; empty `path.relative` means same directory;
an absolute relative path means different drive; otherwise the candidate is
inside iff the relative path does not start with `..`. -/
def isPathSameOrInside (norm : String → String) (rel : String → String → String)
    (isAbs : String → Bool) (sep : String) (parentPath candidatePath : String) : Bool :=
  let parent := norm parentPath
  let candidate := norm candidatePath
  if parent = "" || candidate = "" then
    false
  else
    let relative := rel parent candidate
    if relative = "" then
      true
    else if isAbs relative then
      false
    else
      !(strStarts relative "..") && !(strStarts relative (".." ++ sep))

/-- Embedding of `pathsBelongToSameProject` (pathUtils.js lines 79-81). -/
def pathsBelongToSameProject (norm : String → String) (rel : String → String → String)
    (isAbs : String → Bool) (sep : String) (projectPath sessionCwd : String) : Bool :=
  isPathSameOrInside norm rel isAbs sep projectPath sessionCwd ||
  isPathSameOrInside norm rel isAbs sep sessionCwd projectPath

/-! ## Codex token-usage accounting (getCodexSessionMessages, lines 1443-1461) -/

/-- Reported token usage (`{ used, total }`). -/
structure TokenUsage where
  used : Nat
  total : Nat
deriving DecidableEq, Repr

/-- The `payload.info` object of a `token_count` event: `total_token_usage`
present-or-absent with its `total_tokens` field, plus `model_context_window`. -/
structure CodexTokenInfo where
  totalTokenUsage : Option (Option Nat) := none
  modelContextWindow : Option Nat := none
deriving DecidableEq, Repr

/-- The `payload` of a Codex log record (only the fields the usage scan reads). -/
structure CodexPayload where
  ptype : Option String := none
  info : Option CodexTokenInfo := none
deriving DecidableEq, Repr

/-- A parsed Codex log record (only the fields the usage scan reads). -/
structure CodexEntry where
  ctype : Option String := none
  payload : Option CodexPayload := none
deriving DecidableEq, Repr

/-- Usage carried by one record, if it is a usage-bearing `token_count` event
(source lines 1449-1457): `used = info.total_token_usage.total_tokens || 0`,
`total = info.model_context_window || 200000`. -/
def usageOf (e : CodexEntry) : Option TokenUsage :=
  match e.ctype, e.payload with
  | some "event_msg", some p =>
    match p.ptype, p.info with
    | some "token_count", some info =>
      match info.totalTokenUsage with
      | some tt => some { used := jsOrNat tt 0, total := jsOrNat info.modelContextWindow 200000 }
      | none => none
    | _, _ => none
  | _, _ => none

/-- The `tokenUsage` value reported with a Codex session's messages: the scan
keeps overwriting `tokenUsage` with each usage-bearing record, so the final
value is the last one encountered. -/
def codexTokenUsage (entries : List CodexEntry) : Option TokenUsage :=
  entries.foldl (fun acc e => match usageOf e with | some u => some u | none => acc) none

/-! ## Parsed Claude JSONL log entries

One line of a `.jsonl` log, after JSON.parse, restricted to the fields the
module reads.  Absent JSON fields are `none`; JS `null` for `parentUuid` is
also `none`.  Timestamps are `new Date(...).getTime()` milliseconds. -/

/-- One element of a message `content` array (`{ type, text }`). -/
structure ContentPart where
  ptype : String
  text : String
deriving DecidableEq, Repr

/-- A `message.content` value: either a plain string or an array of parts. -/
inductive MsgContent where
  | str (s : String)
  | arr (parts : List ContentPart)
deriving DecidableEq, Repr

/-- The nested `message` object (`{ role, content }`). -/
structure Message where
  role : String
  content : MsgContent
deriving DecidableEq, Repr

/-- A parsed log entry. -/
structure Entry where
  etype : Option String := none
  sessionId : Option String := none
  parentUuid : Option String := none
  uuid : Option String := none
  leafUuid : Option String := none
  summary : Option String := none
  message : Option Message := none
  timestamp : Option Nat := none
  cwd : Option String := none
  isApiErrorMessage : Bool := false
deriving DecidableEq, Repr

/-- JS truthiness of `message.content`: an empty string is falsy, every
array (even empty) is truthy. -/
def contentTruthy : MsgContent → Bool
  | .str s => s ≠ ""
  | .arr _ => true

/-! ## Project Directory Resolver (`extractProjectDirectory`, lines 264-379)

The cwd tally over all log entries of a project (lines 281-327), and the
resolution decision (lines 329-358).  The cache and filesystem walk are
host concerns; the function below receives the configured `originalPath`
(if any) and the concatenated parsed entries of all the project's files. -/

/-- State of the cwd scan: occurrence counts in first-seen order (a JS `Map`),
and the most-recently-timestamped cwd (strictly increasing timestamps only). -/
structure CwdTally where
  counts : List (String × Nat)
  latestTimestamp : Nat
  latestCwd : Option String
deriving DecidableEq, Repr

/-- Increment a cwd's occurrence count, appending it on first sight. -/
def bumpCount : List (String × Nat) → String → List (String × Nat)
  | [], c => [(c, 1)]
  | (k, n) :: rest, c =>
    if k = c then (k, n + 1) :: rest else (k, n) :: bumpCount rest c

/-- Process one entry of the scan (lines 311-321): only entries with a truthy
`cwd` count; the latest cwd tracks `new Date(entry.timestamp || 0).getTime()`
under strict `>`. -/
def tallyStep (t : CwdTally) (e : Entry) : CwdTally :=
  match strTruthy e.cwd with
  | none => t
  | some c =>
    let counts := bumpCount t.counts c
    let ts := e.timestamp.getD 0
    if t.latestTimestamp < ts then
      { counts := counts, latestTimestamp := ts, latestCwd := some c }
    else
      { t with counts := counts }

/-- The tally over all entries of all the project's `.jsonl` files. -/
def cwdTally (entries : List Entry) : CwdTally :=
  entries.foldl tallyStep { counts := [], latestTimestamp := 0, latestCwd := none }

/-- Occurrence count of a cwd (`cwdCounts.get(latestCwd) || 0`). -/
def lookupCount : List (String × Nat) → String → Nat
  | [], _ => 0
  | (k, n) :: rest, c => if k = c then n else lookupCount rest c

/-- JS `Math.max(...cwdCounts.values())` (counts are all positive). -/
def maxCount (counts : List (String × Nat)) : Nat :=
  counts.foldl (fun m kn => max m kn.2) 0

/-- First key whose count equals `m`, in Map iteration (insertion) order
(lines 346-351). -/
def firstWithCount : List (String × Nat) → Nat → Option String
  | [], _ => none
  | (k, n) :: rest, m => if n = m then some k else firstWithCount rest m

/-- The naive decode of a project directory name: replace every dash with a
slash (the global-regex `replace` in line 295). -/
def decodeProjectName (name : String) : String :=
  String.mk (name.data.map (fun c => if c = '-' then '/' else c))

/-- The resolution decision (lines 329-358).  `mostRecentCount >= maxCount * 0.25`
is exact float arithmetic on integer counts, i.e. `4 * mostRecentCount ≥ maxCount`. -/
def resolveFromTally (t : CwdTally) (projectName : String) : String :=
  if t.counts.length = 0 then
    decodeProjectName projectName
  else if t.counts.length = 1 then
    match t.counts with
    | (k, _) :: _ => k
    | [] => decodeProjectName projectName
  else
    let mostRecentCount :=
      match t.latestCwd with
      | some c => lookupCount t.counts c
      | none => 0
    let maxC := maxCount t.counts
    if maxC ≤ 4 * mostRecentCount then
      match t.latestCwd with
      | some c => c
      | none =>
        match firstWithCount t.counts maxC with
        | some c => c
        | none => decodeProjectName projectName
    else
      match firstWithCount t.counts maxC with
      | some c => c
      | none =>
        match t.latestCwd with
        | some c => c
        | none => decodeProjectName projectName

/-- Embedding of `extractProjectDirectory` (lines 264-379): a truthy configured
`originalPath` wins outright (lines 273-278); otherwise the tally of the
project's log entries decides; an empty tally (no files, no cwd, or a missing
directory) degrades to the decoded project name. -/
def extractProjectDirectory (originalPath : Option String) (entries : List Entry)
    (projectName : String) : String :=
  match strTruthy originalPath with
  | some p => p
  | none => resolveFromTally (cwdTally entries) projectName

/-! ## Tail-relative message pagination
(`getSessionMessages` lines 878-947, `getCodexSessionMessages` lines 1639-1661) -/

/-- JS `Array.prototype.slice(start, end)`: negative indices count from the
end, both are clamped to `[0, length]`. -/
def jsSlice {α : Type} (l : List α) (start stop : Int) : List α :=
  let len : Int := l.length
  let s := if start < 0 then max (len + start) 0 else min start len
  let e := if stop < 0 then max (len + stop) 0 else min stop len
  (l.take e.toNat).drop s.toNat

/-- The pagination envelope `{ messages, total, hasMore }`. -/
structure Paged (α : Type) where
  messages : List α
  total : Nat
  hasMore : Bool
deriving DecidableEq, Repr

/-- Tail-relative pagination over the chronologically sorted message list
(lines 929-942): `startIndex = max(0, total - offset - limit)`,
`endIndex = total - offset`, `hasMore = startIndex > 0`. -/
def paginateTail {α : Type} (sorted : List α) (limit offset : Nat) : Paged α :=
  let total := sorted.length
  let startIndex : Int := max 0 ((total : Int) - (offset : Int) - (limit : Int))
  let endIndex : Int := (total : Int) - (offset : Int)
  { messages := jsSlice sorted startIndex endIndex,
    total := total,
    hasMore := decide (0 < startIndex) }

/-- Timestamp key of the message sort: `new Date(a.timestamp || 0)`. -/
def tsOf (e : Entry) : Nat :=
  e.timestamp.getD 0

/-- The (stable) ascending-timestamp sort relation of line 918. -/
def tsLe (a b : Entry) : Prop :=
  tsOf a ≤ tsOf b

instance : DecidableRel tsLe :=
  fun a b => Nat.decLe (tsOf a) (tsOf b)

instance : IsTotal Entry tsLe :=
  ⟨fun a b => Nat.le_total (tsOf a) (tsOf b)⟩

instance : IsTrans Entry tsLe :=
  ⟨fun _ _ _ h h2 => Nat.le_trans h h2⟩

/-- Result of `getSessionMessages`: with `limit = null` a bare array is
returned (line 926); with a limit, the pagination envelope (lines 936-942). -/
inductive MessagesResult where
  | bare (msgs : List Entry)
  | paged (p : Paged Entry)
deriving DecidableEq, Repr

/-- Embedding of `getSessionMessages` (lines 878-947): collect every parsed
line whose `sessionId` strictly equals the requested one, over all of the
project's (non-`agent-`) `.jsonl` files in order; sort by timestamp (JS sort
is stable); then either return everything or tail-paginate. -/
def getSessionMessages (entries : List Entry) (sessionId : String)
    (limit : Option Nat) (offset : Nat) : MessagesResult :=
  let msgs := entries.filter (fun e => e.sessionId = some sessionId)
  let sorted := List.insertionSort tsLe msgs
  match limit with
  | none => .bare sorted
  | some l => .paged (paginateTail sorted l offset)

/-- The catch-all error path of `getSessionMessages` (line 945):
`limit === null ? [] : { messages: [], total: 0, hasMore: false }`. -/
def getSessionMessagesOnError (limit : Option Nat) : MessagesResult :=
  match limit with
  | none => .bare []
  | some _ => .paged { messages := [], total := 0, hasMore := false }

/-! ## Session deletion (`deleteSession`, lines 967-1017)

File contents are character lists; JSON.parse is the host parameter
`parse`, returning for each line either `none` (malformed) or the parsed
record's optional `sessionId` field. -/

/-- The `sessionId` a line parses to: `none` when JSON.parse throws or when
the parsed record has no `sessionId`. -/
def parsedSid (parse : List Char → Option (Option String)) (line : List Char) :
    Option String :=
  match parse line with
  | some sid => sid
  | none => none

/-- Split a file's content on newline characters (JS `content.split('\n')`). -/
def splitNl : List Char → List (List Char)
  | [] => [[]]
  | c :: rest =>
    if c = '\n' then
      [] :: splitNl rest
    else
      match splitNl rest with
      | [] => [[c]]
      | l :: ls => (c :: l) :: ls

/-- JS `line.trim()` truthiness: a line is kept iff some character is
non-whitespace. -/
def nonBlank (l : List Char) : Bool :=
  l.any (fun c => !c.isWhitespace)

/-- `content.split('\n').filter(line => line.trim())` (line 983). -/
def linesOf (content : List Char) : List (List Char) :=
  (splitNl content).filter nonBlank

/-- `lines.some(...)` (lines 986-993): does this file contain the session? -/
def fileHasSession (parse : List Char → Option (Option String))
    (content : List Char) (sid : String) : Bool :=
  (linesOf content).any (fun l => parsedSid parse l = some sid)

/-- Join lines with newlines and append a trailing newline iff any line
remains: `filteredLines.join('\n') + (filteredLines.length > 0 ? '\n' : '')`. -/
def joinNl (ls : List (List Char)) : List Char :=
  (ls.intersperse ['\n']).flatten ++ (if 0 < ls.length then ['\n'] else [])

/-- The rewrite of one file (lines 995-1007): drop exactly the lines whose
parsed `sessionId` equals the target (malformed lines are kept by the
`catch`), then join. -/
def rewriteFile (parse : List Char → Option (Option String))
    (content : List Char) (sid : String) : List Char :=
  joinNl ((linesOf content).filter (fun l => parsedSid parse l ≠ some sid))

/-- The search loop of lines 980-1012: rewrite the first file that contains
the session and stop; report a not-found error if none does. -/
def deleteLoop (parse : List Char → Option (Option String)) (sid : String) :
    List (List Char) → Except String (List (List Char))
  | [] => .error ("Session " ++ sid ++ " not found in any files")
  | f :: rest =>
    if fileHasSession parse f sid then
      .ok (rewriteFile parse f sid :: rest)
    else
      match deleteLoop parse sid rest with
      | .ok rest2 => .ok (f :: rest2)
      | .error msg => .error msg

/-- Embedding of `deleteSession` (lines 967-1017) over the project's list of
`.jsonl` file contents, returning the rewritten file list or the thrown
error message. -/
def deleteSession (parse : List Char → Option (Option String))
    (files : List (List Char)) (sid : String) : Except String (List (List Char)) :=
  if files.length = 0 then
    .error "No session files found for this project"
  else
    deleteLoop parse sid files

/-! ## Session extraction (`parseJsonlSessions`, lines 725-876)

The fold below receives the already-parsed entries of one file (malformed
lines were skipped by the reader) and `now`, the clock value used for a
fresh session's initial `lastActivity` (`new Date()`). -/

/-- A session record as built by `parseJsonlSessions` (lines 750-758),
including the grouping annotations `getSessions` may add later
(lines 697-701). -/
structure SessState where
  id : String
  summary : String
  messageCount : Nat
  lastActivity : Nat
  cwd : String
  lastUserMessage : Option String
  lastAssistantMessage : Option String
  isGrouped : Bool := false
  groupSize : Nat := 0
  groupSessions : List String := []
deriving DecidableEq, Repr

/-- A fresh session record (lines 750-758). -/
def initSession (sid : String) (e : Entry) (now : Nat) : SessState :=
  { id := sid, summary := "New Session", messageCount := 0, lastActivity := now,
    cwd := (strTruthy e.cwd).getD "", lastUserMessage := none,
    lastAssistantMessage := none }

/-- Extraction of the user text (lines 777-781): an array contributes only
when its first element is a `text` part; otherwise the non-string content is
dropped by the `typeof textContent === 'string'` guard. -/
def userTextContent : MsgContent → Option String
  | .str s => some s
  | .arr (p :: _) => if p.ptype = "text" then some p.text else none
  | .arr [] => none

/-- The system/boilerplate filter for user messages (lines 783-795). -/
def isSystemMessage (t : String) : Bool :=
  strStarts t "<command-name>" ||
  strStarts t "<command-message>" ||
  strStarts t "<command-args>" ||
  strStarts t "<local-command-stdout>" ||
  strStarts t "<system-reminder>" ||
  strStarts t "Caveat:" ||
  strStarts t "This session is being continued from a previous" ||
  strStarts t "Invalid API key" ||
  strIncludes t "\x7b\"subtasks\":" ||
  strIncludes t "CRITICAL: You MUST respond with ONLY a JSON" ||
  t = "Warmup"

/-- The last truthy `text` part of an assistant content array, or the whole
string content (lines 806-816). -/
def lastAssistantText : MsgContent → Option String
  | .str s => some s
  | .arr parts =>
    parts.foldl (fun acc p => if p.ptype = "text" ∧ p.text ≠ "" then some p.text else acc) none

/-- The system filter for assistant messages (lines 819-823). -/
def isSystemAssistant (t : String) : Bool :=
  strStarts t "Invalid API key" ||
  strIncludes t "\x7b\"subtasks\":" ||
  strIncludes t "CRITICAL: You MUST respond with ONLY a JSON"

/-- Pending-summary application (lines 763-766): only while the summary is
still the `"New Session"` placeholder. -/
def applyPendingSummary (pending : List (String × String)) (e : Entry) (s : SessState) :
    SessState :=
  if s.summary = "New Session" then
    match strTruthy e.parentUuid with
    | some p =>
      match lookupA pending p with
      | some t => { s with summary := t }
      | none => s
    | none => s
  else s

/-- Explicit summary records with a `sessionId` (lines 768-771). -/
def applyExplicitSummary (e : Entry) (s : SessState) : SessState :=
  if e.etype = some "summary" then
    match strTruthy e.summary with
    | some t => { s with summary := t }
    | none => s
  else s

/-- Last-user/assistant-message tracking (lines 773-829). -/
def applyMsgTracking (e : Entry) (s : SessState) : SessState :=
  match e.message with
  | none => s
  | some m =>
    if m.role = "user" ∧ contentTruthy m.content then
      match userTextContent m.content with
      | some t =>
        if t ≠ "" ∧ ¬ isSystemMessage t then { s with lastUserMessage := some t } else s
      | none => s
    else if m.role = "assistant" ∧ contentTruthy m.content then
      if e.isApiErrorMessage then s
      else
        match lastAssistantText m.content with
        | some t =>
          if t ≠ "" ∧ ¬ isSystemAssistant t then { s with lastAssistantMessage := some t }
          else s
        | none => s
    else s

/-- Message count and last activity (lines 831-835). -/
def applyCountAndActivity (e : Entry) (s : SessState) : SessState :=
  let s := { s with messageCount := s.messageCount + 1 }
  match e.timestamp with
  | some ts => { s with lastActivity := ts }
  | none => s

/-- The per-entry update of an (existing or fresh) session record
(lines 761-835), in source order. -/
def stepSession (pending : List (String × String)) (e : Entry) (s : SessState) :
    SessState :=
  applyCountAndActivity e (applyMsgTracking e (applyExplicitSummary e (applyPendingSummary pending e s)))

/-- The text an entry contributes to last-user-message tracking, if any:
the composed guard of lines 774-799. -/
def userTrackedText (e : Entry) : Option String :=
  match e.message with
  | some m =>
    if m.role = "user" ∧ contentTruthy m.content then
      match userTextContent m.content with
      | some t => if t ≠ "" ∧ ¬ isSystemMessage t then some t else none
      | none => none
    else none
  | none => none

/-- The fold state: the session map and the pending summaries keyed by
`leafUuid` (lines 726-728). -/
structure ParseState where
  sessions : List (String × SessState)
  pending : List (String × String)
deriving DecidableEq, Repr

/-- Processing one parsed line (lines 737-841): summary records without a
`sessionId` feed the pending map (lines 744-746); entries with a `sessionId`
create/update their session record. -/
def parseStep (now : Nat) (st : ParseState) (e : Entry) : ParseState :=
  let pending :=
    if e.etype = some "summary" ∧ (strTruthy e.summary).isSome ∧
        strTruthy e.sessionId = none ∧ (strTruthy e.leafUuid).isSome then
      match strTruthy e.leafUuid, strTruthy e.summary with
      | some l, some t => setA st.pending l t
      | _, _ => st.pending
    else st.pending
  match strTruthy e.sessionId with
  | none => { st with pending := pending }
  | some sid =>
    let current := (lookupA st.sessions sid).getD (initSession sid e now)
    { sessions := setA st.sessions sid (stepSession pending e current),
      pending := pending }

/-- The full fold over one file's parsed entries. -/
def parseEntries (now : Nat) (entries : List Entry) : ParseState :=
  entries.foldl (parseStep now) { sessions := [], pending := [] }

/-- The 50-character summary truncation (line 849). -/
def truncateSummary (t : String) : String :=
  if 50 < t.data.length then String.mk (t.data.take 50) ++ "..." else t

/-- The final summary fallback (lines 843-852): prefer the last user message,
then the last assistant message. -/
def finalizeSummary (s : SessState) : SessState :=
  if s.summary = "New Session" then
    match s.lastUserMessage.orElse (fun _ => s.lastAssistantMessage) with
    | some t => if t = "" then s else { s with summary := truncateSummary t }
    | none => s
  else s

/-- Embedding of `parseJsonlSessions` (lines 725-876): fold, finalize each
session's summary, and drop sessions whose summary looks like raw JSON
(lines 854-864). -/
def parseJsonlSessions (now : Nat) (entries : List Entry) : List SessState :=
  (((parseEntries now entries).sessions).map (fun p => finalizeSummary p.2)).filter
    (fun s => !(strStarts s.summary "\x7b \""))

/-! ## Session grouping and listing (`getSessions`, lines 597-723)

`getSessions` merges per-file parse results into `allSessions` (first file
wins per id, files in mtime order) and the concatenated `allEntries`, then
groups by first-user-message uuid.  The fold below receives that merged
material. -/

/-- One conversation group (lines 665-678). -/
structure SessGroup where
  latestSession : SessState
  allSessions : List SessState
deriving DecidableEq, Repr

/-- The grouping fold state: `sessionGroups` keyed by first-user-message
uuid, and `sessionToFirstUserMsgId` (lines 651-652). -/
structure GroupState where
  groups : List (String × SessGroup)
  s2f : List (String × String)
deriving DecidableEq, Repr

/-- Processing one entry (lines 655-682): a user entry with `parentUuid`
null marks the first user message of its session; only the first such entry
per session counts; the group's latest member is replaced under strictly
later `lastActivity`. -/
def groupStep (A : List (String × SessState)) (st : GroupState) (e : Entry) :
    GroupState :=
  match strTruthy e.sessionId, strTruthy e.uuid with
  | some sid, some u =>
    if e.etype = some "user" ∧ e.parentUuid = none then
      if containsA st.s2f sid then st
      else
        match lookupA A sid with
        | none => { st with s2f := st.s2f ++ [(sid, u)] }
        | some session =>
          match lookupA st.groups u with
          | none =>
            { groups := st.groups ++ [(u, { latestSession := session, allSessions := [session] })],
              s2f := st.s2f ++ [(sid, u)] }
          | some g =>
            { groups := setA st.groups u
                { latestSession :=
                    if g.latestSession.lastActivity < session.lastActivity then session
                    else g.latestSession,
                  allSessions := g.allSessions ++ [session] },
              s2f := st.s2f ++ [(sid, u)] }
    else st
  | _, _ => st

/-- The grouping fold over all collected entries. -/
def buildGroupState (A : List (String × SessState)) (entries : List Entry) :
    GroupState :=
  entries.foldl (groupStep A) { groups := [], s2f := [] }

/-- The first-user-message marker assigned to a session by the fold. -/
def markerOf (A : List (String × SessState)) (entries : List Entry) (sid : String) :
    Option String :=
  lookupA (buildGroupState A entries).s2f sid

/-- The visible record emitted for a group (lines 694-703): the latest
member, annotated with size and member ids when the group has more than one
member. -/
def repOf (g : SessGroup) : SessState :=
  if 1 < g.allSessions.length then
    { g.latestSession with
      isGrouped := true,
      groupSize := g.allSessions.length,
      groupSessions := g.allSessions.map SessState.id }
  else g.latestSession

/-- Accumulator loop of the first-id-wins merge. -/
def dedupAux (acc : List (String × SessState)) : List SessState → List (String × SessState)
  | [] => acc
  | s :: rest =>
    if containsA acc s.id then dedupAux acc rest else dedupAux (acc ++ [(s.id, s)]) rest

/-- First-id-wins dedup of the merged per-file session lists (lines 629-633):
the `allSessions` Map, in insertion order. -/
def dedupFirst (l : List SessState) : List (String × SessState) :=
  dedupAux [] l

/-- The descending last-activity sort relation of line 706 (stable JS sort). -/
def actGe (a b : SessState) : Prop :=
  b.lastActivity ≤ a.lastActivity

instance : DecidableRel actGe :=
  fun a b => Nat.decLe b.lastActivity a.lastActivity

instance : IsTotal SessState actGe :=
  ⟨fun a b => (Nat.le_total b.lastActivity a.lastActivity)⟩

instance : IsTrans SessState actGe :=
  ⟨fun _ _ _ h h2 => Nat.le_trans h2 h⟩

/-- The set of ids claimed by any group (lines 685-688). -/
def groupedIdsOf (st : GroupState) : List String :=
  st.groups.flatMap (fun p => p.2.allSessions.map SessState.id)

/-- Standalone sessions: members of no group (lines 690-691). -/
def standaloneOf (A : List (String × SessState)) (st : GroupState) : List SessState :=
  (A.map Prod.snd).filter (fun s => !((groupedIdsOf st).contains s.id))

/-- One visible representative per group (lines 694-703). -/
def repsOf (st : GroupState) : List SessState :=
  st.groups.map (fun p => repOf p.2)

/-- Visible sessions (lines 684-706): grouped representatives plus standalone
sessions, minus raw-JSON summaries, sorted by last activity descending. -/
def visibleSessions (A : List (String × SessState)) (entries : List Entry) :
    List SessState :=
  List.insertionSort actGe
    (((repsOf (buildGroupState A entries) ++ standaloneOf A (buildGroupState A entries)).filter
      (fun s => !(strStarts s.summary "\x7b \""))))

/-- Soundness invariant of the grouping fold: every group's latest member is
a maximal-activity member; every member is a session record of the merged map
whose assigned marker is the group's key; every marker-assigned session with
a record belongs to its marker's group; and group keys are distinct. -/
def GroupInv (A : List (String × SessState)) (st : GroupState) : Prop :=
  (∀ p ∈ st.groups,
      p.2.latestSession ∈ p.2.allSessions
      ∧ (∀ s ∈ p.2.allSessions, s.lastActivity ≤ p.2.latestSession.lastActivity)
      ∧ (∀ s ∈ p.2.allSessions,
          lookupA st.s2f s.id = some p.1 ∧ lookupA A s.id = some s))
  ∧ (∀ sid u, lookupA st.s2f sid = some u → ∀ s, lookupA A sid = some s →
      ∃ g, (u, g) ∈ st.groups ∧ s ∈ g.allSessions)
  ∧ (st.groups.map Prod.fst).Nodup

/-- The `{ sessions, total, hasMore }` envelope of `getSessions`. -/
structure SessionsPage where
  sessions : List SessState
  total : Nat
  hasMore : Bool
deriving DecidableEq, Repr

/-- Embedding of the aggregation half of `getSessions` (lines 620-718),
taking the merged per-file session records (in collection order, before
dedup) and the concatenated entries. -/
def getSessions (rawSessions : List SessState) (entries : List Entry)
    (limit offset : Nat) : SessionsPage :=
  let A := dedupFirst rawSessions
  let visible := visibleSessions A entries
  { sessions := jsSlice visible (offset : Int) ((offset : Int) + (limit : Int)),
    total := visible.length,
    hasMore := decide (offset + limit < visible.length) }

/-! ## Concrete inputs used by the counterexamples and witnesses -/

/-- A log entry recording cwd `/a` at timestamp 1. -/
def entryCwdA : Entry :=
  { cwd := some "/a", timestamp := some 1 }

/-- A log entry recording cwd `/b` at timestamp 2 (the most recent). -/
def entryCwdB : Entry :=
  { cwd := some "/b", timestamp := some 2 }

/-- Tally `\x7bA: 10, B: 1\x7d` with B most recent. -/
def c1entriesA : List Entry :=
  List.replicate 10 entryCwdA ++ [entryCwdB]

/-- Tally `\x7bA: 10, B: 4\x7d` with B most recent. -/
def c1entriesB : List Entry :=
  List.replicate 10 entryCwdA ++ List.replicate 4 entryCwdB

/-- First message of the two-message session used against C2. -/
def c2msg1 : Entry :=
  { sessionId := some "s", uuid := some "u1", timestamp := some 1 }

/-- Second message of the two-message session used against C2. -/
def c2msg2 : Entry :=
  { sessionId := some "s", uuid := some "u2", timestamp := some 2 }

/-- JSON.parse behaviour on the two concrete session lines: `x1` is a line of
session X, `y1` a line of session Y, everything else malformed. -/
def parseXY (l : List Char) : Option (Option String) :=
  if l = ['x', '1'] then some (some "X")
  else if l = ['y', '1'] then some (some "Y")
  else none

/-- A file holding one line of session X and one of session Y. -/
def fileXY : List Char :=
  ['x', '1', '\n', 'y', '1']

/-- A file holding a single line of session X. -/
def fileX : List Char :=
  ['x', '1']

/-- A file whose middle line is whitespace-only (fails JSON.parse). -/
def fileBlankMid : List Char :=
  ['x', '1', '\n', ' ', '\n', 'y', '1']

/-- A parse function under which every line is malformed. -/
def parseNone (_ : List Char) : Option (Option String) :=
  none

/-- A Codex `token_count` event carrying cumulative total 10. -/
def codexUsage10 : CodexEntry :=
  { ctype := some "event_msg",
    payload := some { ptype := some "token_count",
                      info := some { totalTokenUsage := some (some 10),
                                     modelContextWindow := some 100000 } } }

/-- A Codex `token_count` event carrying cumulative total 15. -/
def codexUsage15 : CodexEntry :=
  { ctype := some "event_msg",
    payload := some { ptype := some "token_count",
                      info := some { totalTokenUsage := some (some 15),
                                     modelContextWindow := some 100000 } } }

/-- A Codex record bearing no usage. -/
def codexNoUsage : CodexEntry :=
  { ctype := some "response_item" }

/-- A plain user message entry of session s5. -/
def c5hello : Entry :=
  { sessionId := some "s5", uuid := some "h1",
    message := some { role := "user", content := .str "hello" },
    timestamp := some 1 }

/-- A later slash-command echo in session s5 (system boilerplate). -/
def c5cmd : Entry :=
  { sessionId := some "s5", uuid := some "h2",
    message := some { role := "user", content := .str "<command-name>clear" },
    timestamp := some 2 }

/-- A 60-character user message (for the truncation check). -/
def c5long : Entry :=
  { sessionId := some "s6", uuid := some "h3",
    message := some { role := "user", content := .str (String.mk (List.replicate 60 'a')) },
    timestamp := some 1 }

/-- An explicit summary record for session s7. -/
def c5sum : Entry :=
  { etype := some "summary", sessionId := some "s7", summary := some "Done",
    timestamp := some 3 }

/-- Concrete session record s1, last active at 5. -/
def sessRec1 : SessState :=
  { id := "s1", summary := "first", messageCount := 2, lastActivity := 5, cwd := "/p",
    lastUserMessage := none, lastAssistantMessage := none }

/-- Concrete session record s2, last active at 9. -/
def sessRec2 : SessState :=
  { id := "s2", summary := "second", messageCount := 3, lastActivity := 9, cwd := "/p",
    lastUserMessage := none, lastAssistantMessage := none }

/-- First user message (no parent) of session s1, marker m0. -/
def gEntry1 : Entry :=
  { etype := some "user", sessionId := some "s1", parentUuid := none, uuid := some "m0",
    timestamp := some 5 }

/-- First user message (no parent) of session s2: same marker m0 (a resumed
copy of the same conversation). -/
def gEntry2 : Entry :=
  { etype := some "user", sessionId := some "s2", parentUuid := none, uuid := some "m0",
    timestamp := some 9 }

/-! ## Association-list lemmas -/

theorem lookupA_append {β : Type} (l1 l2 : List (String × β)) (k : String) :
    lookupA (l1 ++ l2) k =
      match lookupA l1 k with
      | some v => some v
      | none => lookupA l2 k := by
  induction l1 with
  | nil => rfl
  | cons p rest ih =>
    obtain ⟨k0, v0⟩ := p
    by_cases h : k0 = k
    · simp [lookupA, h]
    · simp [lookupA, h, ih]

theorem lookupA_append_some {β : Type} {l1 : List (String × β)} {k : String} {v : β}
    (l2 : List (String × β)) (h : lookupA l1 k = some v) :
    lookupA (l1 ++ l2) k = some v := by
  rw [lookupA_append, h]

theorem lookupA_append_snoc_self {β : Type} {l : List (String × β)} {k : String}
    (v : β) (h : lookupA l k = none) :
    lookupA (l ++ [(k, v)]) k = some v := by
  rw [lookupA_append, h]
  simp [lookupA]

theorem lookupA_setA_self {β : Type} (l : List (String × β)) (k : String) (v : β) :
    lookupA (setA l k v) k = some v := by
  induction l with
  | nil => simp [setA, lookupA]
  | cons p rest ih =>
    obtain ⟨k0, v0⟩ := p
    by_cases h : k0 = k
    · simp [setA, h, lookupA]
    · simp [setA, h, lookupA, ih]

theorem lookupA_setA_ne {β : Type} (l : List (String × β)) (k k2 : String) (v : β)
    (h : k2 ≠ k) : lookupA (setA l k v) k2 = lookupA l k2 := by
  have hk : ¬ (k = k2) := fun hh => h hh.symm
  induction l with
  | nil => simp only [setA, lookupA, if_neg hk]
  | cons p rest ih =>
    obtain ⟨k0, v0⟩ := p
    by_cases h0 : k0 = k
    · subst h0
      simp only [setA, if_pos rfl, lookupA, if_neg hk]
    · simp only [setA, if_neg h0, lookupA]
      rw [ih]

theorem mem_of_lookupA {β : Type} {l : List (String × β)} {k : String} {v : β}
    (h : lookupA l k = some v) : (k, v) ∈ l := by
  induction l with
  | nil => simp [lookupA] at h
  | cons p rest ih =>
    obtain ⟨k0, v0⟩ := p
    by_cases h0 : k0 = k
    · subst h0
      simp [lookupA] at h
      simp [h]
    · simp [lookupA, h0] at h
      exact List.mem_cons_of_mem _ (ih h)

theorem lookupA_isSome_of_mem {β : Type} {l : List (String × β)} {k : String} {v : β}
    (h : (k, v) ∈ l) : ∃ w, lookupA l k = some w := by
  induction l with
  | nil => simp at h
  | cons p rest ih =>
    obtain ⟨k0, v0⟩ := p
    by_cases h0 : k0 = k
    · exact ⟨v0, by simp [lookupA, h0]⟩
    · rcases List.mem_cons.mp h with h1 | h1
      · cases h1
        exact absurd rfl h0
      · obtain ⟨w, hw⟩ := ih h1
        exact ⟨w, by simp [lookupA, h0, hw]⟩

theorem lookupA_of_mem_nodup {β : Type} {l : List (String × β)} {k : String} {v : β}
    (hnd : (l.map Prod.fst).Nodup) (h : (k, v) ∈ l) : lookupA l k = some v := by
  induction l with
  | nil => simp at h
  | cons p rest ih =>
    obtain ⟨k0, v0⟩ := p
    simp only [List.map_cons, List.nodup_cons] at hnd
    rcases List.mem_cons.mp h with h1 | h1
    · cases h1
      simp [lookupA]
    · have hk : k0 ≠ k := by
        intro hh
        subst hh
        exact hnd.1 (List.mem_map.mpr ⟨(k0, v), h1, rfl⟩)
      simp [lookupA, hk]
      exact ih hnd.2 h1

theorem pair_eq_of_nodup {β : Type} {l : List (String × β)} {p q : String × β}
    (hnd : (l.map Prod.fst).Nodup) (hp : p ∈ l) (hq : q ∈ l) (hk : p.1 = q.1) :
    p = q := by
  obtain ⟨kp, vp⟩ := p
  obtain ⟨kq, vq⟩ := q
  simp only at hk
  subst hk
  have h1 := lookupA_of_mem_nodup hnd hp
  have h2 := lookupA_of_mem_nodup hnd hq
  rw [h1] at h2
  cases h2
  rfl

theorem self_mem_setA {β : Type} (l : List (String × β)) (k : String) (v : β) :
    (k, v) ∈ setA l k v := by
  induction l with
  | nil => simp [setA]
  | cons p rest ih =>
    obtain ⟨k0, v0⟩ := p
    by_cases h0 : k0 = k
    · subst h0
      simp [setA]
    · simp only [setA, if_neg h0]
      exact List.mem_cons_of_mem _ ih

theorem mem_setA_of_ne {β : Type} {l : List (String × β)} {p : String × β}
    (k : String) (v : β) (hp : p ∈ l) (hne : p.1 ≠ k) : p ∈ setA l k v := by
  induction l with
  | nil => simp at hp
  | cons q rest ih =>
    obtain ⟨k0, v0⟩ := q
    rcases List.mem_cons.mp hp with h1 | h1
    · subst h1
      by_cases h0 : k0 = k
      · exact absurd h0 hne
      · simp [setA, h0]
    · by_cases h0 : k0 = k
      · subst h0
        simp only [setA, if_pos rfl]
        exact List.mem_cons_of_mem _ h1
      · simp only [setA, if_neg h0]
        exact List.mem_cons_of_mem _ (ih h1)

theorem mem_of_mem_setA {β : Type} {l : List (String × β)} {p : String × β}
    {k : String} {v : β} (hnd : (l.map Prod.fst).Nodup) (hp : p ∈ setA l k v) :
    p = (k, v) ∨ (p ∈ l ∧ p.1 ≠ k) := by
  induction l with
  | nil =>
    simp [setA] at hp
    exact Or.inl hp
  | cons q rest ih =>
    obtain ⟨k0, v0⟩ := q
    simp only [List.map_cons, List.nodup_cons] at hnd
    by_cases h0 : k0 = k
    · subst h0
      simp only [setA, if_pos rfl] at hp
      rcases List.mem_cons.mp hp with h1 | h1
      · exact Or.inl h1
      · refine Or.inr ⟨List.mem_cons_of_mem _ h1, ?_⟩
        intro hk
        exact hnd.1 (List.mem_map.mpr ⟨p, h1, hk⟩)
    · simp only [setA, if_neg h0] at hp
      rcases List.mem_cons.mp hp with h1 | h1
      · subst h1
        exact Or.inr ⟨List.mem_cons_self _ _, h0⟩
      · rcases ih hnd.2 h1 with h2 | h2
        · exact Or.inl h2
        · exact Or.inr ⟨List.mem_cons_of_mem _ h2.1, h2.2⟩

theorem keys_setA {β : Type} {l : List (String × β)} {k : String}
    (v : β) (h : containsA l k = true) :
    (setA l k v).map Prod.fst = l.map Prod.fst := by
  induction l with
  | nil => simp [containsA, lookupA] at h
  | cons q rest ih =>
    obtain ⟨k0, v0⟩ := q
    by_cases h0 : k0 = k
    · simp [setA, h0]
    · simp only [containsA, lookupA, if_neg h0] at h
      simp [setA, h0, ih h]

theorem not_mem_keys_of_lookupA_none {β : Type} {l : List (String × β)} {k : String}
    (h : lookupA l k = none) : k ∉ l.map Prod.fst := by
  induction l with
  | nil => simp
  | cons q rest ih =>
    obtain ⟨k0, v0⟩ := q
    by_cases h0 : k0 = k
    · simp [lookupA, h0] at h
    · simp only [lookupA, if_neg h0] at h
      simp only [List.map_cons, List.mem_cons]
      push_neg
      exact ⟨fun hh => h0 hh.symm, ih h⟩

/-! ## Slice and pagination lemmas -/

theorem mem_of_mem_jsSlice {α : Type} {l : List α} {a b : Int} {x : α}
    (h : x ∈ jsSlice l a b) : x ∈ l := by
  unfold jsSlice at h
  exact List.mem_of_mem_take (List.mem_of_mem_drop h)

theorem paginateTail_messages {α : Type} (l : List α) (L off : Nat)
    (h : off ≤ l.length) :
    (paginateTail l L off).messages = (l.take (l.length - off)).drop (l.length - off - L) := by
  simp only [paginateTail, jsSlice]
  have h1 : ¬ (max 0 ((l.length : Int) - (off : Int) - (L : Int)) < 0) := by omega
  have h2 : ¬ (((l.length : Int) - (off : Int)) < 0) := by omega
  rw [if_neg h1, if_neg h2]
  have h3 : (min (max 0 ((l.length : Int) - (off : Int) - (L : Int))) ((l.length : Int))).toNat
      = l.length - off - L := by omega
  have h4 : (min ((l.length : Int) - (off : Int)) ((l.length : Int))).toNat
      = l.length - off := by omega
  rw [h3, h4]

theorem paginateTail_hasMore {α : Type} (l : List α) (L off : Nat) :
    ((paginateTail l L off).hasMore = true) ↔ off + L < l.length := by
  simp only [paginateTail, decide_eq_true_eq]
  omega

theorem paginateTail_nil {α : Type} (L off : Nat) :
    paginateTail ([] : List α) L off = { messages := [], total := 0, hasMore := false } := by
  simp only [paginateTail, jsSlice, List.length_nil, List.take_nil, List.drop_nil,
    Nat.cast_zero, Paged.mk.injEq, true_and, and_true, eq_self_iff_true]
  rw [decide_eq_false_iff_not]
  omega

/-! ## Claim C7 -/

/-- C7: for all paths A and B (and any host path library `norm`/`rel`/`isAbs`
with separator `sep`), `belongsToSameProject(A, B)` equals
`belongsToSameProject(B, A)`, and the check holds iff A is the same as or
inside B, or B is the same as or inside A, after normalization. -/
theorem C7_belongs_to_same_project_symmetric (norm : String → String)
    (rel : String → String → String) (isAbs : String → Bool) (sep : String)
    (a b : String) :
    pathsBelongToSameProject norm rel isAbs sep a b
      = pathsBelongToSameProject norm rel isAbs sep b a
    ∧ pathsBelongToSameProject norm rel isAbs sep a b
      = (isPathSameOrInside norm rel isAbs sep a b
          || isPathSameOrInside norm rel isAbs sep b a) := by
  exact ⟨Bool.or_comm _ _, rfl⟩

/-! ## Claim C8 -/

/-- Auxiliary: records bearing no usage leave the running value unchanged. -/
theorem codexUsage_fold_const (post : List CodexEntry) :
    ∀ acc : Option TokenUsage, (∀ x ∈ post, usageOf x = none) →
      post.foldl (fun acc e => match usageOf e with | some u => some u | none => acc) acc
        = acc := by
  induction post with
  | nil => intro acc _; rfl
  | cons x rest ih =>
    intro acc hall
    have hx : usageOf x = none := hall x (List.mem_cons_self _ _)
    have hrest : ∀ y ∈ rest, usageOf y = none :=
      fun y hy => hall y (List.mem_cons_of_mem _ hy)
    simp only [List.foldl_cons, hx]
    exact ih acc hrest

/-- C8: the token usage reported with a session's messages (the `tokenUsage`
field assembled at lines 1449-1457 and returned at lines 1657/1661) is the
cumulative value carried by the last usage-bearing record of the file, not a
sum over records. -/
theorem C8_token_usage_is_last_record (entries pre post : List CodexEntry)
    (e : CodexEntry) (u : TokenUsage)
    (hsplit : entries = pre ++ e :: post)
    (hu : usageOf e = some u)
    (hpost : ∀ x ∈ post, usageOf x = none) :
    codexTokenUsage entries = some u := by
  subst hsplit
  unfold codexTokenUsage
  rw [List.foldl_append, List.foldl_cons, hu]
  exact codexUsage_fold_const post (some u) hpost

/-- C8 witness: in a file whose usage-bearing records carry cumulative totals
10 then 15 (followed by a non-usage record), the reported usage is 15 — the
last record's value, not the sum 25. -/
theorem C8_token_usage_is_last_record_witness :
    codexTokenUsage [codexUsage10, codexUsage15, codexNoUsage]
        = some { used := 15, total := 100000 }
    ∧ (15 : Nat) ≠ 10 + 15 :=
  ⟨C8_token_usage_is_last_record _ [codexUsage10] [codexNoUsage] codexUsage15
      { used := 15, total := 100000 } rfl (by decide) (by decide),
   by decide⟩

/-! ## Claim C2 -/

/-- C2 counterexample: for the chronologically sorted two-message list
`[c2msg1, c2msg2]` (N = 2) and limit L = 3, the offset-0 page already returns
both messages, so the page at offset L must, per the claim, hold the messages
immediately preceding those — there are none, and the truncation the claim
allows ("fewer if the start of the list is reached") prescribes the empty
list `(take (N-L)).drop (N-2L) = []`.  The code instead returns `[c2msg1]`:
`endIndex = total - offset = -1` is negative, and `Array.slice` counts a
negative end from the end of the array, resurfacing the oldest message that
the offset-0 page already contained. -/
theorem C2_counterexample :
    (paginateTail [c2msg1, c2msg2] 3 0).messages = [c2msg1, c2msg2]
    ∧ (paginateTail [c2msg1, c2msg2] 3 3).messages = [c2msg1]
    ∧ (([c2msg1, c2msg2].take ([c2msg1, c2msg2].length - 3)).drop
        ([c2msg1, c2msg2].length - 2 * 3) : List Entry) = []
    ∧ ([c2msg1] : List Entry) ≠ [] := by
  refine ⟨by decide, by decide, by decide, by decide⟩

/-- C2 (amended): message pagination is tail-relative.  For the sorted
message list S of a session (this is what `getSessionMessages` paginates,
first conjunct), a request `(limit=L, offset=0)` returns the last `min(L,N)`
messages in chronological order, and — provided `L ≤ N` — the request
`(limit=L, offset=L)` returns the L messages immediately preceding those
(fewer when the start is reached); `hasMore` is true iff the computed start
index `max(0, N - offset - L)` is positive.  When `offset > N` the claim's
description of the returned window fails (see the counterexample): the
negative slice end makes the code return a spurious prefix of the oldest
messages instead of an empty page. -/
theorem C2_tail_relative_pagination (entries : List Entry) (sid : String)
    (L : Nat) (hL : 0 < L) :
    (∀ off, getSessionMessages entries sid (some L) off
        = .paged (paginateTail
            (List.insertionSort tsLe (entries.filter (fun e => e.sessionId = some sid)))
            L off))
    ∧ (∀ l : List Entry, (paginateTail l L 0).messages = l.drop (l.length - L))
    ∧ (∀ l : List Entry, L ≤ l.length →
        (paginateTail l L L).messages = (l.take (l.length - L)).drop (l.length - 2 * L))
    ∧ (∀ l : List Entry, ∀ off, ((paginateTail l L off).hasMore = true) ↔ off + L < l.length) := by
  refine ⟨fun off => rfl, fun l => ?_, fun l hLN => ?_, fun l off => paginateTail_hasMore l L off⟩
  · rw [paginateTail_messages l L 0 (Nat.zero_le _)]
    simp only [Nat.sub_zero, List.take_length]
  · rw [paginateTail_messages l L L hLN]
    congr 1
    omega

/-- C2 witness: the amended pagination applied to a concrete three-message
session with L = 2: offset 0 yields the newest two, offset 2 the single
older message, and hasMore goes false exactly when the window is exhausted. -/
theorem C2_tail_relative_pagination_witness :
    (0 : Nat) < 2
    ∧ (2 : Nat) ≤ ([c2msg1, c2msg2, c5hello] : List Entry).length
    ∧ (paginateTail [c2msg1, c2msg2, c5hello] 2 0).messages = [c2msg2, c5hello]
    ∧ (paginateTail [c2msg1, c2msg2, c5hello] 2 2).messages = [c2msg1] := by
  refine ⟨by decide, by decide, ?_, ?_⟩
  · rw [(C2_tail_relative_pagination [] "s" 2 (by decide)).2.1 [c2msg1, c2msg2, c5hello]]
    decide
  · rw [(C2_tail_relative_pagination [] "s" 2 (by decide)).2.2.1 [c2msg1, c2msg2, c5hello]
      (by decide)]
    decide

/-! ## Claim C10 -/

/-- C10: with `limit` null, `getSessionMessages` returns a bare array holding
all of the session's messages sorted by timestamp ascending (no envelope),
the error path returns a bare empty array in that mode, and every non-null
limit yields the `{ messages, total, hasMore }` envelope. -/
theorem C10_null_limit_returns_bare_array (entries : List Entry) (sid : String)
    (off : Nat) :
    (∃ msgs, getSessionMessages entries sid none off = .bare msgs
      ∧ msgs.Perm (entries.filter (fun e => e.sessionId = some sid))
      ∧ msgs.Sorted tsLe)
    ∧ getSessionMessagesOnError none = .bare []
    ∧ (∀ L, ∃ p : Paged Entry, getSessionMessages entries sid (some L) off = .paged p) := by
  refine ⟨⟨_, rfl, List.perm_insertionSort tsLe _, List.sorted_insertionSort tsLe _⟩,
    rfl, fun L => ⟨_, rfl⟩⟩

/-! ## Claim C6 -/

/-- C6 counterexample: fetching messages of a session id that occurs in no
log entry does not propagate a NotFound — `getSessionMessages` (whose body
catches every error and whose unknown-id path simply finds zero matching
lines, lines 903-915) returns the empty result set
`\x7b messages: [], total: 0, hasMore: false \x7d`, contradicting the claim
that an explicit message fetch for an unknown session ID propagates a
NotFound rather than returning an empty result set. -/
theorem C6_counterexample :
    getSessionMessages [c2msg1] "missing" (some 10) 0
      = .paged { messages := [], total := 0, hasMore := false } := by
  decide

/-- Auxiliary: the deletion loop errors when no file contains the session. -/
theorem deleteLoop_error_of_none (parse : List Char → Option (Option String))
    (sid : String) (files : List (List Char))
    (h : ∀ f ∈ files, fileHasSession parse f sid = false) :
    deleteLoop parse sid files = .error ("Session " ++ sid ++ " not found in any files") := by
  induction files with
  | nil => rfl
  | cons f rest ih =>
    have hf : fileHasSession parse f sid = false := h f (List.mem_cons_self _ _)
    have hrest := ih (fun g hg => h g (List.mem_cons_of_mem _ hg))
    simp only [deleteLoop, hf, Bool.false_eq_true, if_false, hrest]

/-- C6 (amended): explicit session deletion when the target session exists in
no file raises a not-found error (this covers both the empty-project error
and the searched-all-files error), while explicit message fetch for an
unknown session ID returns the empty result set rather than propagating a
NotFound. -/
theorem C6_notfound_propagation (parse : List Char → Option (Option String))
    (files : List (List Char)) (sid : String) (entries : List Entry)
    (sid2 : String) (L off : Nat) :
    ((∀ f ∈ files, fileHasSession parse f sid = false) →
      ∃ msg, deleteSession parse files sid = .error msg)
    ∧ ((∀ e ∈ entries, e.sessionId ≠ some sid2) →
      getSessionMessages entries sid2 (some L) off
        = .paged { messages := [], total := 0, hasMore := false }) := by
  constructor
  · intro h
    unfold deleteSession
    by_cases hn : files.length = 0
    · rw [if_pos hn]
      exact ⟨_, rfl⟩
    · rw [if_neg hn, deleteLoop_error_of_none parse sid files h]
      exact ⟨_, rfl⟩
  · intro h
    unfold getSessionMessages
    have hfil : entries.filter (fun e => decide (e.sessionId = some sid2)) = [] := by
      rw [List.filter_eq_nil_iff]
      intro e he
      simp only [decide_eq_true_eq]
      exact h e he
    rw [hfil]
    show MessagesResult.paged (paginateTail (List.insertionSort tsLe []) L off) = _
    rw [show List.insertionSort tsLe [] = [] from rfl, paginateTail_nil]

/-- C6 witness: a project whose only file has every line malformed errors on
deletion of session X, and a fetch for an id no entry carries returns the
empty envelope. -/
theorem C6_notfound_propagation_witness :
    (∃ msg, deleteSession parseNone [['a']] "X" = .error msg)
    ∧ getSessionMessages [c2msg1] "other" (some 5) 1
        = .paged { messages := [], total := 0, hasMore := false } :=
  ⟨(C6_notfound_propagation parseNone [['a']] "X" [c2msg1] "other" 5 1).1 (by decide),
   (C6_notfound_propagation parseNone [['a']] "X" [c2msg1] "other" 5 1).2 (by decide)⟩

/-! ## Claim C4 -/

/-- C4 counterexample: lines of session X live in two files, but
`deleteSession` stops after rewriting the first file that contains the
session (the `return true` inside the loop, line 1008), so the second file
still holds a line whose parsed sessionId is X — the claim's "removes all log
lines whose parsed sessionId equals the target session ID from whichever
file(s) contain them" fails for sessions spanning more than one file. -/
theorem C4_counterexample :
    deleteSession parseXY [fileXY, fileX] "X" = .ok [['y', '1', '\n'], fileX]
    ∧ parsedSid parseXY ['x', '1'] = some "X"
    ∧ ['x', '1'] ∈ linesOf fileX := by
  refine ⟨rfl, by decide, by decide⟩

/-- Auxiliary: the deletion loop rewrites the first file containing the
session and leaves every other file untouched. -/
theorem deleteLoop_found (parse : List Char → Option (Option String)) (sid : String)
    (pre post : List (List Char)) (f : List Char)
    (hpre : ∀ g ∈ pre, fileHasSession parse g sid = false)
    (hf : fileHasSession parse f sid = true) :
    deleteLoop parse sid (pre ++ f :: post)
      = .ok (pre ++ rewriteFile parse f sid :: post) := by
  induction pre with
  | nil => simp only [List.nil_append, deleteLoop, hf, if_true]
  | cons g rest ih =>
    have hg : fileHasSession parse g sid = false := hpre g (List.mem_cons_self _ _)
    have hrest := ih (fun g2 hg2 => hpre g2 (List.mem_cons_of_mem _ hg2))
    simp only [List.cons_append, deleteLoop, hg, Bool.false_eq_true, if_false, List.append_eq]
    rw [hrest]

/-- Auxiliary: the rewritten file ends with a newline iff it is non-empty. -/
theorem joinNl_trailing_newline (ls : List (List Char)) :
    ((joinNl ls).getLast? = some '\n') ↔ joinNl ls ≠ [] := by
  cases ls with
  | nil => simp [joinNl]
  | cons l rest =>
    have hlen : 0 < (l :: rest).length := Nat.succ_pos _
    unfold joinNl
    rw [if_pos hlen]
    constructor
    · intro _
      simp
    · intro _
      exact List.getLast?_concat _

/-- C4 (amended): deletion removes, from the first file (in directory-listing
order) that contains any line of the target session, exactly the lines whose
parsed sessionId equals the target, leaving every other file unchanged; when
that file held exactly two sessions X and Y, the rewritten file holds exactly
session Y's lines; and the rewritten file ends with a trailing newline iff it
is non-empty.  (The claim's "from whichever file(s) contain them" fails for a
session spanning several files: only the first file is rewritten — see the
counterexample.) -/
theorem C4_delete_session_rewrite (parse : List Char → Option (Option String))
    (pre post : List (List Char)) (f : List Char) (sid : String)
    (hpre : ∀ g ∈ pre, fileHasSession parse g sid = false)
    (hf : fileHasSession parse f sid = true) :
    deleteSession parse (pre ++ f :: post) sid
      = .ok (pre ++ rewriteFile parse f sid :: post)
    ∧ rewriteFile parse f sid
      = joinNl ((linesOf f).filter (fun l => parsedSid parse l ≠ some sid))
    ∧ (∀ Y : String, Y ≠ sid →
        (∀ l ∈ linesOf f, parsedSid parse l = some sid ∨ parsedSid parse l = some Y) →
        rewriteFile parse f sid
          = joinNl ((linesOf f).filter (fun l => parsedSid parse l = some Y)))
    ∧ (((rewriteFile parse f sid).getLast? = some '\n') ↔ rewriteFile parse f sid ≠ []) := by
  refine ⟨?_, rfl, ?_, ?_⟩
  · unfold deleteSession
    rw [if_neg (by simp), deleteLoop_found parse sid pre post f hpre hf]
  · intro Y hY hall
    unfold rewriteFile
    congr 1
    apply List.filter_congr
    intro l hl
    rcases hall l hl with hx | hy
    · rw [hx]
      apply decide_eq_decide.mpr
      constructor
      · intro hcon
        exact absurd rfl hcon
      · intro hcon
        exact absurd (Option.some.inj hcon).symm hY
    · rw [hy]
      apply decide_eq_decide.mpr
      constructor
      · intro _
        rfl
      · intro _ hcon
        exact hY (Option.some.inj hcon)
  · unfold rewriteFile
    exact joinNl_trailing_newline _

/-- C4 witness: deleting session X from a project whose single file holds the
two sessions X and Y leaves exactly Y's line, followed by the trailing
newline. -/
theorem C4_delete_session_rewrite_witness :
    deleteSession parseXY [fileXY] "X" = .ok [['y', '1', '\n']]
    ∧ rewriteFile parseXY fileXY "X"
        = joinNl ((linesOf fileXY).filter (fun l => parsedSid parseXY l = some "Y"))
    ∧ (((rewriteFile parseXY fileXY "X").getLast? = some '\n')
        ↔ rewriteFile parseXY fileXY "X" ≠ []) := by
  have h := C4_delete_session_rewrite parseXY [] [] fileXY "X" (by decide) (by decide)
  exact ⟨h.1, h.2.2.1 "Y" (by decide) (by decide), h.2.2.2⟩

/-! ## Claim C9 -/

/-- C9 counterexample: the whitespace-only middle line of `fileBlankMid`
fails JSON.parse, yet the rewrite drops it (the `filter(line => line.trim())`
of line 983 removes blank lines before the per-session filter runs), so a
line that fails to parse as JSON is not preserved by deletion. -/
theorem C9_counterexample :
    rewriteFile parseXY fileBlankMid "X" = ['y', '1', '\n']
    ∧ parseXY [' '] = none
    ∧ [' '] ∈ splitNl fileBlankMid
    ∧ [' '] ∉ splitNl (rewriteFile parseXY fileBlankMid "X") := by
  refine ⟨by decide, by decide, by decide, by decide⟩

/-- C9 (amended): among the non-blank lines of the rewritten file, every line
that fails to parse as JSON is preserved unchanged (the `catch` of
lines 1001-1003 keeps it), and only lines whose parsed sessionId equals the
deleted session's ID are removed; whitespace-only lines, however, are
unconditionally dropped by the rewrite (they fail JSON.parse yet do not
survive — see the counterexample). -/
theorem C9_malformed_lines_preserved (parse : List Char → Option (Option String))
    (content : List Char) (sid : String) :
    rewriteFile parse content sid
      = joinNl ((linesOf content).filter (fun l => parsedSid parse l ≠ some sid))
    ∧ (∀ l ∈ linesOf content, parse l = none →
        l ∈ (linesOf content).filter (fun l => parsedSid parse l ≠ some sid))
    ∧ (∀ l ∈ linesOf content,
        l ∉ (linesOf content).filter (fun l => parsedSid parse l ≠ some sid) →
        parsedSid parse l = some sid) := by
  refine ⟨rfl, ?_, ?_⟩
  · intro l hl hparse
    rw [List.mem_filter]
    refine ⟨hl, ?_⟩
    simp only [parsedSid, hparse, ne_eq, decide_not]
    simp
  · intro l hl hnot
    by_contra hne
    exact hnot (List.mem_filter.mpr ⟨hl, by simp [hne]⟩)

/-- C9 witness: the malformed line `z` of a two-line file survives the
deletion of session X. -/
theorem C9_malformed_lines_preserved_witness :
    ['z'] ∈ (linesOf ['x', '1', '\n', 'z']).filter
      (fun l => parsedSid parseXY l ≠ some "X") :=
  (C9_malformed_lines_preserved parseXY ['x', '1', '\n', 'z'] "X").2.1
    ['z'] (by decide) (by decide)

/-! ## Claim C1 -/

/-- Auxiliary: a tally step leaves the counts list as `bumpCount` of the old
counts (or unchanged when the entry has no truthy cwd). -/
theorem tallyStep_counts (t : CwdTally) (e : Entry) (c : String)
    (h : strTruthy e.cwd = some c) :
    (tallyStep t e).counts = bumpCount t.counts c := by
  simp only [tallyStep, h]
  split <;> rfl

/-- Auxiliary: when every recorded cwd equals `v`, the counts list stays
empty or a singleton at `v`. -/
theorem tally_counts_single (v : String) :
    ∀ (es : List Entry) (t : CwdTally),
      (∀ e ∈ es, ∀ c, strTruthy e.cwd = some c → c = v) →
      (t.counts = [] ∨ ∃ n, t.counts = [(v, n)]) →
      ((es.foldl tallyStep t).counts = [] ∨ ∃ n, (es.foldl tallyStep t).counts = [(v, n)]) := by
  intro es
  induction es with
  | nil => intro t _ ht; exact ht
  | cons e rest ih =>
    intro t hall ht
    refine ih _ (fun e2 he2 => hall e2 (List.mem_cons_of_mem _ he2)) ?_
    cases hcwd : strTruthy e.cwd with
    | none =>
      have : (tallyStep t e).counts = t.counts := by simp [tallyStep, hcwd]
      rw [this]
      exact ht
    | some c =>
      have hc : c = v := hall e (List.mem_cons_self _ _) c hcwd
      subst hc
      rw [tallyStep_counts t e c hcwd]
      rcases ht with h | ⟨n, h⟩
      · rw [h]
        exact Or.inr ⟨1, rfl⟩
      · rw [h]
        exact Or.inr ⟨n + 1, by simp [bumpCount]⟩

/-- Auxiliary: nonempty counts stay nonempty through the scan. -/
theorem tally_counts_stay_ne_nil :
    ∀ (es : List Entry) (t : CwdTally), t.counts ≠ [] →
      (es.foldl tallyStep t).counts ≠ [] := by
  intro es
  induction es with
  | nil => intro t h; exact h
  | cons e rest ih =>
    intro t h
    refine ih _ ?_
    cases hcwd : strTruthy e.cwd with
    | none =>
      have : (tallyStep t e).counts = t.counts := by simp [tallyStep, hcwd]
      rw [this]
      exact h
    | some c =>
      rw [tallyStep_counts t e c hcwd]
      cases hc : t.counts with
      | nil => simp [bumpCount]
      | cons p r =>
        obtain ⟨k, n⟩ := p
        simp only [bumpCount]
        split <;> simp

/-- Auxiliary: an entry with a truthy cwd makes the counts nonempty. -/
theorem tally_counts_ne_nil (es : List Entry) (t : CwdTally)
    (hex : ∃ e ∈ es, (strTruthy e.cwd).isSome) :
    (es.foldl tallyStep t).counts ≠ [] := by
  induction es generalizing t with
  | nil => simp at hex
  | cons e rest ih =>
    obtain ⟨e2, he2, hsome⟩ := hex
    rcases List.mem_cons.mp he2 with h1 | h1
    · subst h1
      rw [List.foldl_cons]
      apply tally_counts_stay_ne_nil
      obtain ⟨c, hc⟩ := Option.isSome_iff_exists.mp hsome
      rw [tallyStep_counts t e2 c hc]
      cases hc2 : t.counts with
      | nil => simp [bumpCount]
      | cons p r =>
        obtain ⟨k, n⟩ := p
        simp only [bumpCount]
        split <;> simp
    · exact ih _ ⟨e2, h1, hsome⟩

/-- Auxiliary: exactly one distinct cwd value recorded means a singleton
counts list. -/
theorem cwdTally_single (entries : List Entry) (v : String)
    (hall : ∀ e ∈ entries, ∀ c, strTruthy e.cwd = some c → c = v)
    (hex : ∃ e ∈ entries, strTruthy e.cwd = some v) :
    ∃ n, (cwdTally entries).counts = [(v, n)] := by
  have h1 := tally_counts_single v entries
    { counts := [], latestTimestamp := 0, latestCwd := none } hall (Or.inl rfl)
  obtain ⟨e, he, hv⟩ := hex
  have h2 : (cwdTally entries).counts ≠ [] :=
    tally_counts_ne_nil entries
      { counts := [], latestTimestamp := 0, latestCwd := none } ⟨e, he, by rw [hv]; rfl⟩
  rcases h1 with h | h
  · exact absurd h h2
  · exact h

/-- C1: the resolver returns the configured originalPath when explicit
configuration records one; otherwise, when exactly one distinct
working-directory value was recorded over all log entries, it returns that
value; when several distinct values were tallied it returns the
most-recently-timestamped value when its count is at least 25 percent of the
maximum count (`4 * count ≥ max`), and otherwise the first value (in Map
insertion order) attaining the strict maximum count.  In particular the
tallies `\x7bA: 10, B: 1\x7d` (B most recent) and `\x7bA: 10, B: 4\x7d`
(B most recent) resolve to A and B respectively. -/
theorem C1_project_directory_resolution (cfg : Option String) (entries : List Entry)
    (name : String) :
    (∀ p, cfg = some p → p ≠ "" → extractProjectDirectory cfg entries name = p)
    ∧ (strTruthy cfg = none →
        (∀ v, (∀ e ∈ entries, ∀ c, strTruthy e.cwd = some c → c = v) →
          (∃ e ∈ entries, strTruthy e.cwd = some v) →
          extractProjectDirectory cfg entries name = v)
        ∧ (∀ c, 2 ≤ (cwdTally entries).counts.length →
            (cwdTally entries).latestCwd = some c →
            (maxCount (cwdTally entries).counts
                ≤ 4 * lookupCount (cwdTally entries).counts c →
              extractProjectDirectory cfg entries name = c)
            ∧ (∀ w, 4 * lookupCount (cwdTally entries).counts c
                  < maxCount (cwdTally entries).counts →
                firstWithCount (cwdTally entries).counts
                    (maxCount (cwdTally entries).counts) = some w →
                extractProjectDirectory cfg entries name = w)))
    ∧ extractProjectDirectory none c1entriesA "proj" = "/a"
    ∧ extractProjectDirectory none c1entriesB "proj" = "/b" := by
  refine ⟨?_, ?_, by decide, by decide⟩
  · intro p hp hne
    subst hp
    simp [extractProjectDirectory, strTruthy, hne]
  · intro hcfg
    have hex : extractProjectDirectory cfg entries name
        = resolveFromTally (cwdTally entries) name := by
      simp [extractProjectDirectory, hcfg]
    constructor
    · intro v hall hexv
      obtain ⟨n, hc⟩ := cwdTally_single entries v hall hexv
      rw [hex]
      simp [resolveFromTally, hc]
    · intro c hlen hlatest
      have h0 : ¬ ((cwdTally entries).counts.length = 0) := by omega
      have h1 : ¬ ((cwdTally entries).counts.length = 1) := by omega
      constructor
      · intro hge
        rw [hex]
        simp only [resolveFromTally, if_neg h0, if_neg h1, hlatest, if_pos hge]
      · intro w hlt hw
        rw [hex]
        simp only [resolveFromTally, if_neg h0, if_neg h1, hlatest,
          if_neg (Nat.not_le.mpr hlt), hw]

/-- C1 witness: on the concrete tally `\x7bA: 10, B: 4\x7d` with B most
recent, the 25-percent rule fires (16 ≥ 10) and the resolver prefers the
most recent value `/b`. -/
theorem C1_project_directory_resolution_witness :
    (cwdTally c1entriesB).latestCwd = some "/b"
    ∧ 2 ≤ (cwdTally c1entriesB).counts.length
    ∧ maxCount (cwdTally c1entriesB).counts
        ≤ 4 * lookupCount (cwdTally c1entriesB).counts "/b"
    ∧ extractProjectDirectory none c1entriesB "proj" = "/b" := by
  refine ⟨by decide, by decide, by decide, ?_⟩
  exact ((((C1_project_directory_resolution none c1entriesB "proj").2.1) rfl).2 "/b"
    (by decide) (by decide)).1 (by decide)

/-! ## Claim C5: auxiliary lemmas about the parse fold -/

theorem applyPendingSummary_eq_of_ne (p : List (String × String)) (e : Entry)
    (s : SessState) (h : s.summary ≠ "New Session") :
    applyPendingSummary p e s = s := by
  unfold applyPendingSummary
  rw [if_neg h]

theorem applyPendingSummary_lastUser (p : List (String × String)) (e : Entry)
    (s : SessState) :
    (applyPendingSummary p e s).lastUserMessage = s.lastUserMessage := by
  unfold applyPendingSummary
  repeat' split
  all_goals rfl

theorem applyExplicitSummary_lastUser (e : Entry) (s : SessState) :
    (applyExplicitSummary e s).lastUserMessage = s.lastUserMessage := by
  unfold applyExplicitSummary
  repeat' split
  all_goals rfl

theorem applyMsgTracking_summary (e : Entry) (s : SessState) :
    (applyMsgTracking e s).summary = s.summary := by
  unfold applyMsgTracking
  repeat' split
  all_goals rfl

theorem applyCountAndActivity_summary (e : Entry) (s : SessState) :
    (applyCountAndActivity e s).summary = s.summary := by
  unfold applyCountAndActivity
  repeat' split
  all_goals rfl

theorem applyCountAndActivity_lastUser (e : Entry) (s : SessState) :
    (applyCountAndActivity e s).lastUserMessage = s.lastUserMessage := by
  unfold applyCountAndActivity
  repeat' split
  all_goals rfl

theorem applyMsgTracking_lastUser (e : Entry) (s : SessState) :
    (applyMsgTracking e s).lastUserMessage =
      match userTrackedText e with
      | some t => some t
      | none => s.lastUserMessage := by
  cases hm : e.message with
  | none => simp [applyMsgTracking, userTrackedText, hm]
  | some m =>
    simp only [applyMsgTracking, userTrackedText, hm]
    by_cases h1 : m.role = "user" ∧ contentTruthy m.content = true
    · rw [if_pos h1, if_pos h1]
      cases ht : userTextContent m.content with
      | none => rfl
      | some t =>
        by_cases h2 : t ≠ "" ∧ ¬ isSystemMessage t = true
        · simp only [if_pos h2]
        · simp only [if_neg h2]
    · rw [if_neg h1, if_neg h1]
      repeat' split
      all_goals first
      | rfl
      | contradiction

theorem stepSession_lastUser (p : List (String × String)) (e : Entry) (s : SessState) :
    (stepSession p e s).lastUserMessage =
      match userTrackedText e with
      | some t => some t
      | none => s.lastUserMessage := by
  unfold stepSession
  rw [applyCountAndActivity_lastUser, applyMsgTracking_lastUser,
    applyExplicitSummary_lastUser, applyPendingSummary_lastUser]

theorem stepSession_summary_explicit (p : List (String × String)) (e : Entry)
    (s : SessState) (T : String) (hety : e.etype = some "summary")
    (hsum : strTruthy e.summary = some T) :
    (stepSession p e s).summary = T := by
  unfold stepSession
  rw [applyCountAndActivity_summary, applyMsgTracking_summary]
  unfold applyExplicitSummary
  rw [if_pos hety, hsum]

theorem stepSession_summary_frame (p : List (String × String)) (e : Entry)
    (s : SessState) (hNS : s.summary ≠ "New Session")
    (hnot : ¬(e.etype = some "summary" ∧ (strTruthy e.summary).isSome)) :
    (stepSession p e s).summary = s.summary := by
  unfold stepSession
  rw [applyCountAndActivity_summary, applyMsgTracking_summary,
    applyPendingSummary_eq_of_ne p e s hNS]
  unfold applyExplicitSummary
  by_cases he : e.etype = some "summary"
  · rw [if_pos he]
    cases hs : strTruthy e.summary with
    | none => rfl
    | some t => exact absurd ⟨he, by rw [hs]; rfl⟩ hnot
  · rw [if_neg he]

theorem stepSession_summary_pending_nil (e : Entry) (s : SessState)
    (hety : e.etype ≠ some "summary") :
    (stepSession [] e s).summary = s.summary := by
  unfold stepSession
  rw [applyCountAndActivity_summary, applyMsgTracking_summary]
  unfold applyExplicitSummary
  rw [if_neg hety]
  unfold applyPendingSummary
  by_cases hNS : s.summary = "New Session"
  · rw [if_pos hNS]
    cases hp : strTruthy e.parentUuid with
    | none => rfl
    | some pu => rfl
  · rw [if_neg hNS]

theorem userTrackedText_ne_empty (e : Entry) (U : String)
    (h : userTrackedText e = some U) : U ≠ "" := by
  cases hm : e.message with
  | none =>
    simp [userTrackedText, hm] at h
  | some m =>
    simp only [userTrackedText, hm] at h
    by_cases h1 : m.role = "user" ∧ contentTruthy m.content = true
    · rw [if_pos h1] at h
      generalize hg : userTextContent m.content = r at h
      cases r with
      | none => cases h
      | some t =>
        have h3 : (if t ≠ "" ∧ ¬ isSystemMessage t = true then some t else none) = some U := h
        by_cases h2 : t ≠ "" ∧ ¬ isSystemMessage t = true
        · rw [if_pos h2] at h3
          cases h3
          exact h2.1
        · rw [if_neg h2] at h3
          cases h3
    · rw [if_neg h1] at h
      cases h

theorem parseStep_pending_of_not_summary (now : Nat) (st : ParseState) (e : Entry)
    (h : e.etype ≠ some "summary") :
    (parseStep now st e).pending = st.pending := by
  unfold parseStep
  rw [if_neg (fun hc => h hc.1)]
  split <;> rfl

theorem parseStep_sessions_frame (now : Nat) (st : ParseState) (e : Entry)
    (sid : String) (h : strTruthy e.sessionId ≠ some sid) :
    lookupA (parseStep now st e).sessions sid = lookupA st.sessions sid := by
  unfold parseStep
  cases hs : strTruthy e.sessionId with
  | none => rfl
  | some sid2 =>
    have hne : sid ≠ sid2 := fun hh => h (by rw [hh]; exact hs)
    exact lookupA_setA_ne _ _ _ _ hne

theorem parseStep_sessions_self (now : Nat) (st : ParseState) (e : Entry)
    (sid : String) (h : strTruthy e.sessionId = some sid) :
    lookupA (parseStep now st e).sessions sid
      = some (stepSession st.pending e
          ((lookupA st.sessions sid).getD (initSession sid e now))) := by
  have hcond : ¬(e.etype = some "summary" ∧ (strTruthy e.summary).isSome
      ∧ strTruthy e.sessionId = none ∧ (strTruthy e.leafUuid).isSome) := by
    intro hc
    rw [h] at hc
    exact Option.noConfusion hc.2.2.1
  unfold parseStep
  rw [if_neg hcond, h]
  exact lookupA_setA_self _ _ _

/-- Auxiliary: the explicit-summary value survives the rest of the file when
no later summary record targets the session. -/
theorem summary_preserved_fold (now : Nat) (sid T : String) (hT : T ≠ "New Session") :
    ∀ (l2 : List Entry) (st : ParseState),
      (∀ e ∈ l2, ¬(strTruthy e.sessionId = some sid ∧ e.etype = some "summary"
          ∧ (strTruthy e.summary).isSome)) →
      (∃ s, lookupA st.sessions sid = some s ∧ s.summary = T) →
      ∃ s, lookupA (l2.foldl (parseStep now) st).sessions sid = some s ∧ s.summary = T := by
  intro l2
  induction l2 with
  | nil => intro st _ h; exact h
  | cons e rest ih =>
    intro st hall hst
    obtain ⟨s, hs, hsum⟩ := hst
    refine ih _ (fun x hx => hall x (List.mem_cons_of_mem _ hx)) ?_
    by_cases he : strTruthy e.sessionId = some sid
    · refine ⟨_, parseStep_sessions_self now st e sid he, ?_⟩
      rw [hs, Option.getD_some]
      have hNS : s.summary ≠ "New Session" := by rw [hsum]; exact hT
      have hnot2 : ¬(e.etype = some "summary" ∧ (strTruthy e.summary).isSome) :=
        fun hc => hall e (List.mem_cons_self _ _) ⟨he, hc.1, hc.2⟩
      rw [stepSession_summary_frame _ _ _ hNS hnot2, hsum]
    · exact ⟨s, by rw [parseStep_sessions_frame now st e sid he]; exact hs, hsum⟩

/-- Auxiliary: with no summary records at all, the pending map stays empty
and every session's summary stays the placeholder. -/
theorem no_summary_invariant (now : Nat) :
    ∀ (es : List Entry) (st : ParseState),
      (∀ e ∈ es, e.etype ≠ some "summary") →
      st.pending = [] →
      (∀ sid2 s, lookupA st.sessions sid2 = some s → s.summary = "New Session") →
      (es.foldl (parseStep now) st).pending = []
      ∧ (∀ sid2 s, lookupA (es.foldl (parseStep now) st).sessions sid2 = some s →
          s.summary = "New Session") := by
  intro es
  induction es with
  | nil => intro st _ hp hs; exact ⟨hp, hs⟩
  | cons e rest ih =>
    intro st hall hp hs
    have hety : e.etype ≠ some "summary" := hall e (List.mem_cons_self _ _)
    refine ih _ (fun x hx => hall x (List.mem_cons_of_mem _ hx)) ?_ ?_
    · rw [parseStep_pending_of_not_summary now st e hety, hp]
    · intro sid2 s hlook
      by_cases he : strTruthy e.sessionId = some sid2
      · rw [parseStep_sessions_self now st e sid2 he] at hlook
        cases hlook
        rw [hp, stepSession_summary_pending_nil e _ hety]
        cases hcur : lookupA st.sessions sid2 with
        | none => rfl
        | some s0 =>
          rw [Option.getD_some]
          exact hs sid2 s0 hcur
      · rw [parseStep_sessions_frame now st e sid2 he] at hlook
        exact hs sid2 s hlook

/-- Auxiliary: the last tracked user message survives the rest of the file
when no later entry of the session tracks a user message. -/
theorem lastUser_preserved_fold (now : Nat) (sid : String) (U : String) :
    ∀ (l2 : List Entry) (st : ParseState),
      (∀ e ∈ l2, strTruthy e.sessionId = some sid → userTrackedText e = none) →
      (∃ s, lookupA st.sessions sid = some s ∧ s.lastUserMessage = some U) →
      ∃ s, lookupA (l2.foldl (parseStep now) st).sessions sid = some s
        ∧ s.lastUserMessage = some U := by
  intro l2
  induction l2 with
  | nil => intro st _ h; exact h
  | cons e rest ih =>
    intro st hall hst
    obtain ⟨s, hs, hu⟩ := hst
    refine ih _ (fun x hx hsid => hall x (List.mem_cons_of_mem _ hx) hsid) ?_
    by_cases he : strTruthy e.sessionId = some sid
    · refine ⟨_, parseStep_sessions_self now st e sid he, ?_⟩
      rw [hs, Option.getD_some, stepSession_lastUser,
        hall e (List.mem_cons_self _ _) he, hu]
    · exact ⟨s, by rw [parseStep_sessions_frame now st e sid he]; exact hs, hu⟩

/-- C5: a session's derived summary is the explicit summary record's text
when one exists for the session (first conjunct: the last such record in the
file, surviving to the end); otherwise it is the most recent non-system user
message, truncated to 50 characters with an appended ellipsis when longer
(second conjunct); system/boilerplate messages are excluded from last-user
tracking and hence from summary derivation (third conjunct: the later
slash-command echo does not displace "hello"); the fourth conjunct shows the
truncation on a 60-character message. -/
theorem C5_summary_derivation (now : Nat) :
    (∀ (es l1 l2 : List Entry) (eS : Entry) (sid T : String),
        es = l1 ++ eS :: l2 →
        eS.etype = some "summary" →
        strTruthy eS.summary = some T →
        strTruthy eS.sessionId = some sid →
        T ≠ "New Session" →
        (∀ e ∈ l2, ¬(strTruthy e.sessionId = some sid ∧ e.etype = some "summary"
            ∧ (strTruthy e.summary).isSome)) →
        ∃ s, lookupA (parseEntries now es).sessions sid = some s
          ∧ (finalizeSummary s).summary = T)
    ∧ (∀ (es l1 l2 : List Entry) (eU : Entry) (sid U : String),
        (∀ e ∈ es, e.etype ≠ some "summary") →
        es = l1 ++ eU :: l2 →
        strTruthy eU.sessionId = some sid →
        userTrackedText eU = some U →
        (∀ e ∈ l2, strTruthy e.sessionId = some sid → userTrackedText e = none) →
        ∃ s, lookupA (parseEntries now es).sessions sid = some s
          ∧ s.lastUserMessage = some U
          ∧ (finalizeSummary s).summary = truncateSummary U)
    ∧ (parseJsonlSessions 0 [c5hello, c5cmd]).map SessState.summary = ["hello"]
    ∧ (parseJsonlSessions 0 [c5long]).map SessState.summary
        = [String.mk (List.replicate 50 'a') ++ "..."] := by
  refine ⟨?_, ?_, by decide, by decide⟩
  · intro es l1 l2 eS sid T hsplit hety hsumm hsid hT hl2
    subst hsplit
    unfold parseEntries
    rw [List.foldl_append, List.foldl_cons]
    have hstep : ∃ s, lookupA (parseStep now
        (l1.foldl (parseStep now) { sessions := [], pending := [] }) eS).sessions sid
          = some s ∧ s.summary = T :=
      ⟨_, parseStep_sessions_self now _ eS sid hsid,
        stepSession_summary_explicit _ _ _ T hety hsumm⟩
    obtain ⟨s, hs, hsum⟩ := summary_preserved_fold now sid T hT l2 _ hl2 hstep
    refine ⟨s, hs, ?_⟩
    unfold finalizeSummary
    rw [if_neg (by rw [hsum]; exact hT)]
    exact hsum
  · intro es l1 l2 eU sid U h0 hsplit hsid hU hl2
    subst hsplit
    have hUne := userTrackedText_ne_empty eU U hU
    unfold parseEntries
    rw [List.foldl_append, List.foldl_cons]
    have hstep : ∃ s, lookupA (parseStep now
        (l1.foldl (parseStep now) { sessions := [], pending := [] }) eU).sessions sid
          = some s ∧ s.lastUserMessage = some U := by
      refine ⟨_, parseStep_sessions_self now _ eU sid hsid, ?_⟩
      rw [stepSession_lastUser, hU]
    obtain ⟨s1, hs1, hu1⟩ := lastUser_preserved_fold now sid U l2 _
      (fun e he hsid2 => hl2 e he hsid2) hstep
    have hinv := no_summary_invariant now (l1 ++ eU :: l2)
      { sessions := [], pending := [] } h0 rfl
      (fun sid2 s h => by simp [lookupA] at h)
    rw [List.foldl_append, List.foldl_cons] at hinv
    have hNS : s1.summary = "New Session" := hinv.2 sid s1 hs1
    refine ⟨s1, hs1, hu1, ?_⟩
    unfold finalizeSummary
    rw [if_pos hNS]
    have horelse : s1.lastUserMessage.orElse (fun _ => s1.lastAssistantMessage) = some U := by
      rw [hu1]
      rfl
    rw [horelse]
    show (if U = "" then s1 else { s1 with summary := truncateSummary U }).summary
      = truncateSummary U
    rw [if_neg hUne]

/-- C5 witness: a file holding a single explicit summary record for session
s7 derives the summary "Done". -/
theorem C5_summary_derivation_witness :
    ∃ s, lookupA (parseEntries 0 [c5sum]).sessions "s7" = some s
      ∧ (finalizeSummary s).summary = "Done" :=
  (C5_summary_derivation 0).1 [c5sum] [] [] c5sum "s7" "Done" rfl rfl (by decide)
    (by decide) (by decide) (by decide)

/-! ## Claim C3: auxiliary lemmas about the grouping fold -/

theorem lookupA_snoc_cases {β : Type} {l : List (String × β)} {k0 k : String}
    {v0 v : β} (h : lookupA (l ++ [(k0, v0)]) k = some v) :
    lookupA l k = some v ∨ (lookupA l k = none ∧ k = k0 ∧ v = v0) := by
  rw [lookupA_append] at h
  cases hl : lookupA l k with
  | some w =>
    rw [hl] at h
    exact Or.inl h
  | none =>
    rw [hl] at h
    by_cases hk : k0 = k
    · refine Or.inr ⟨rfl, hk.symm, ?_⟩
      have h2 : (if k0 = k then some v0 else none) = some v := h
      rw [if_pos hk] at h2
      exact (Option.some.inj h2).symm
    · have h2 : (if k0 = k then some v0 else none) = some v := h
      rw [if_neg hk] at h2
      cases h2

theorem dedupAux_shape :
    ∀ (raw : List SessState) (acc : List (String × SessState)),
      (∀ p ∈ acc, p.1 = p.2.id) → ∀ p ∈ dedupAux acc raw, p.1 = p.2.id := by
  intro raw
  induction raw with
  | nil =>
    intro acc hacc p hp
    exact hacc p hp
  | cons s rest ih =>
    intro acc hacc p hp
    unfold dedupAux at hp
    by_cases hc : containsA acc s.id = true
    · rw [if_pos hc] at hp
      exact ih acc hacc p hp
    · rw [if_neg hc] at hp
      refine ih _ ?_ p hp
      intro q hq
      rcases List.mem_append.mp hq with h1 | h1
      · exact hacc q h1
      · have : q = (s.id, s) := by simpa using h1
        rw [this]

theorem dedupFirst_shape (raw : List SessState) :
    ∀ p ∈ dedupFirst raw, p.1 = p.2.id :=
  dedupAux_shape raw [] (by intro p hp; cases hp)

theorem repOf_id (g : SessGroup) : (repOf g).id = g.latestSession.id := by
  unfold repOf
  split <;> rfl

theorem repOf_lastActivity (g : SessGroup) :
    (repOf g).lastActivity = g.latestSession.lastActivity := by
  unfold repOf
  split <;> rfl

theorem groupStep_inv (A : List (String × SessState)) (st : GroupState) (e : Entry)
    (hKey : ∀ k v, lookupA A k = some v → v.id = k)
    (hinv : GroupInv A st) : GroupInv A (groupStep A st e) := by
  obtain ⟨hI1, hI2, hI3⟩ := hinv
  unfold groupStep
  split
  case h_2 => exact ⟨hI1, hI2, hI3⟩
  case h_1 =>
    rename_i sid u hsid huu
    by_cases hcond : e.etype = some "user" ∧ e.parentUuid = none
    swap
    · rw [if_neg hcond]
      exact ⟨hI1, hI2, hI3⟩
    · rw [if_pos hcond]
      by_cases hhas : containsA st.s2f sid = true
      · rw [if_pos hhas]
        exact ⟨hI1, hI2, hI3⟩
      · rw [if_neg hhas]
        have hs2fnone : lookupA st.s2f sid = none := by
          unfold containsA at hhas
          cases hl : lookupA st.s2f sid with
          | none => rfl
          | some w =>
            rw [hl] at hhas
            simp at hhas
        split
        · rename_i hA
          refine ⟨?_, ?_, hI3⟩
          · intro p hp
            obtain ⟨ha, hb, hc⟩ := hI1 p hp
            exact ⟨ha, hb, fun s hs =>
              ⟨lookupA_append_some _ (hc s hs).1, (hc s hs).2⟩⟩
          · intro sid2 u2 hlook s hAs
            rcases lookupA_snoc_cases hlook with hold | ⟨_, heq1, _⟩
            · exact hI2 sid2 u2 hold s hAs
            · rw [heq1, hA] at hAs
              cases hAs
        · rename_i session hA
          have hsesid : session.id = sid := hKey sid session hA
          split
          · rename_i hg
            refine ⟨?_, ?_, ?_⟩
            · intro p hp
              rcases List.mem_append.mp hp with hp1 | hp2
              · obtain ⟨ha, hb, hc⟩ := hI1 p hp1
                exact ⟨ha, hb, fun s hs =>
                  ⟨lookupA_append_some _ (hc s hs).1, (hc s hs).2⟩⟩
              · have hpe : p = (u, { latestSession := session, allSessions := [session] }) := by
                  simpa using hp2
                subst hpe
                refine ⟨by simp, ?_, ?_⟩
                · intro s hs
                  have hse : s = session := by simpa using hs
                  rw [hse]
                · intro s hs
                  have hse : s = session := by simpa using hs
                  subst hse
                  rw [hsesid]
                  exact ⟨lookupA_append_snoc_self u hs2fnone, hA⟩
            · intro sid2 u2 hlook s hAs
              rcases lookupA_snoc_cases hlook with hold | ⟨_, heq1, heq2⟩
              · obtain ⟨g0, hg0mem, hsg0⟩ := hI2 sid2 u2 hold s hAs
                exact ⟨g0, List.mem_append_left _ hg0mem, hsg0⟩
              · rw [heq1, hA] at hAs
                have hs2 : s = session := (Option.some.inj hAs).symm
                subst heq2
                refine ⟨{ latestSession := session, allSessions := [session] },
                  List.mem_append_right _ (by simp), by rw [hs2]; simp⟩
            · rw [List.map_append]
              refine List.Nodup.append hI3 (List.nodup_singleton u) ?_
              intro a ha hb
              have hau : a = u := by simpa using hb
              rw [hau] at ha
              exact not_mem_keys_of_lookupA_none hg ha
          · rename_i g hg
            have hgmem : (u, g) ∈ st.groups := mem_of_lookupA hg
            obtain ⟨hga, hgb, hgc⟩ := hI1 (u, g) hgmem
            have hcontains : containsA st.groups u = true := by
              unfold containsA
              rw [hg]
              rfl
            have hlatmem :
                (if g.latestSession.lastActivity < session.lastActivity then session
                  else g.latestSession) ∈ g.allSessions ++ [session] := by
              split
              · exact List.mem_append_right _ (by simp)
              · exact List.mem_append_left _ hga
            have hlatmax : ∀ s ∈ g.allSessions ++ [session],
                s.lastActivity ≤ (if g.latestSession.lastActivity < session.lastActivity
                  then session else g.latestSession).lastActivity := by
              intro s hs
              rcases List.mem_append.mp hs with h1 | h1
              · have hle := hgb s h1
                split
                · next hlt => exact Nat.le_trans hle (Nat.le_of_lt hlt)
                · exact hle
              · have hse : s = session := by simpa using h1
                subst hse
                split
                · exact Nat.le_refl _
                · next hnlt => exact Nat.le_of_not_lt hnlt
            refine ⟨?_, ?_, ?_⟩
            · intro p hp
              rcases mem_of_mem_setA hI3 hp with hpe | ⟨hpold, hpne⟩
              · subst hpe
                refine ⟨hlatmem, hlatmax, ?_⟩
                intro s hs
                rcases List.mem_append.mp hs with h1 | h1
                · exact ⟨lookupA_append_some _ (hgc s h1).1, (hgc s h1).2⟩
                · have hse : s = session := by simpa using h1
                  subst hse
                  rw [hsesid]
                  exact ⟨lookupA_append_snoc_self u hs2fnone, hA⟩
              · obtain ⟨ha, hb, hc⟩ := hI1 p hpold
                exact ⟨ha, hb, fun s hs =>
                  ⟨lookupA_append_some _ (hc s hs).1, (hc s hs).2⟩⟩
            · intro sid2 u2 hlook s hAs
              rcases lookupA_snoc_cases hlook with hold | ⟨_, heq1, heq2⟩
              · obtain ⟨g0, hg0mem, hsg0⟩ := hI2 sid2 u2 hold s hAs
                by_cases hu2 : u2 = u
                · subst hu2
                  have hpair : ((u2, g0) : String × SessGroup) = (u2, g) :=
                    pair_eq_of_nodup hI3 hg0mem hgmem rfl
                  have hgg : g0 = g := by
                    injection hpair
                  refine ⟨_, self_mem_setA _ _ _, List.mem_append_left _ ?_⟩
                  rw [← hgg]
                  exact hsg0
                · exact ⟨g0, mem_setA_of_ne _ _ hg0mem hu2, hsg0⟩
              · rw [heq1, hA] at hAs
                have hs2 : s = session := (Option.some.inj hAs).symm
                subst heq2
                refine ⟨_, self_mem_setA _ _ _, ?_⟩
                rw [hs2]
                exact List.mem_append_right _ (by simp)
            · rw [keys_setA _ hcontains]
              exact hI3

theorem foldl_groupStep_inv (A : List (String × SessState))
    (hKey : ∀ k v, lookupA A k = some v → v.id = k) :
    ∀ (es : List Entry) (st : GroupState),
      GroupInv A st → GroupInv A (es.foldl (groupStep A) st) := by
  intro es
  induction es with
  | nil => intro st h; exact h
  | cons e rest ih => intro st h; exact ih _ (groupStep_inv A st e hKey h)

theorem buildGroupState_inv (A : List (String × SessState)) (entries : List Entry)
    (hKey : ∀ k v, lookupA A k = some v → v.id = k) :
    GroupInv A (buildGroupState A entries) := by
  refine foldl_groupStep_inv A hKey entries _ ⟨?_, ?_, ?_⟩
  · intro p hp
    cases hp
  · intro sid u hl
    simp [lookupA] at hl
  · simp

theorem mem_visible {A : List (String × SessState)} {entries : List Entry}
    {x : SessState} (hx : x ∈ visibleSessions A entries) :
    x ∈ repsOf (buildGroupState A entries)
      ∨ x ∈ standaloneOf A (buildGroupState A entries) := by
  unfold visibleSessions at hx
  have hx2 := (List.perm_insertionSort actGe _).mem_iff.mp hx
  exact List.mem_append.mp (List.mem_filter.mp hx2).1

theorem visible_with_marker (A : List (String × SessState)) (entries : List Entry)
    (r : SessState) (M : String)
    (hShape : ∀ p ∈ A, p.1 = p.2.id)
    (hr : r ∈ visibleSessions A entries)
    (hm : markerOf A entries r.id = some M) :
    ∃ g, (M, g) ∈ (buildGroupState A entries).groups ∧ r = repOf g := by
  have hKey : ∀ k v, lookupA A k = some v → v.id = k :=
    fun k v h => (hShape (k, v) (mem_of_lookupA h)).symm
  obtain ⟨hI1, hI2, hI3⟩ := buildGroupState_inv A entries hKey
  rcases mem_visible hr with hrep | hstand
  · unfold repsOf at hrep
    obtain ⟨p, hp, hrp⟩ := List.mem_map.mp hrep
    obtain ⟨hga, hgb, hgc⟩ := hI1 p hp
    have hid : lookupA (buildGroupState A entries).s2f p.2.latestSession.id = some p.1 :=
      (hgc _ hga).1
    have hrid : r.id = p.2.latestSession.id := by
      rw [← hrp, repOf_id]
    have hM : p.1 = M := by
      unfold markerOf at hm
      rw [hrid, hid] at hm
      exact Option.some.inj hm
    refine ⟨p.2, ?_, hrp.symm⟩
    rw [← hM]
    exact hp
  · exfalso
    unfold standaloneOf at hstand
    have h1 := List.mem_filter.mp hstand
    obtain ⟨q, hq, hqr⟩ := List.mem_map.mp h1.1
    have hqmem : (r.id, r) ∈ A := by
      have hsh := hShape q hq
      have : q = (r.id, r) := by
        rw [← hqr, ← hsh]
      rw [← this]
      exact hq
    obtain ⟨w, hw⟩ := lookupA_isSome_of_mem hqmem
    obtain ⟨g, hgmem2, hsg⟩ := hI2 r.id M hm w hw
    have hwid : w.id = r.id := hKey _ _ hw
    have hmemid : r.id ∈ groupedIdsOf (buildGroupState A entries) := by
      rw [← hwid]
      unfold groupedIdsOf
      exact List.mem_flatMap.mpr ⟨(M, g), hgmem2, List.mem_map.mpr ⟨w, hsg, rfl⟩⟩
    have hcontains : (groupedIdsOf (buildGroupState A entries)).contains r.id = true :=
      List.elem_eq_true_of_mem hmemid
    have hfalse := h1.2
    rw [hcontains] at hfalse
    cases hfalse

/-- C3: two sessions of one project that share the same first-user-message
marker never both appear in the `getSessions` result; the one displayed has
a last-activity timestamp at least that of every other record sharing the
marker; and when the shared group holds more than one member the displayed
record is annotated with the group's size and member ids. -/
theorem C3_grouping_invariant (raw : List SessState) (entries : List Entry)
    (limit offset : Nat) (sidA sidB M : String)
    (hne : sidA ≠ sidB)
    (hmA : markerOf (dedupFirst raw) entries sidA = some M)
    (hmB : markerOf (dedupFirst raw) entries sidB = some M) :
    (¬((∃ r ∈ (getSessions raw entries limit offset).sessions, r.id = sidA)
        ∧ (∃ r ∈ (getSessions raw entries limit offset).sessions, r.id = sidB)))
    ∧ (∀ r ∈ (getSessions raw entries limit offset).sessions, r.id = sidA →
        (∀ sB, lookupA (dedupFirst raw) sidB = some sB →
          sB.lastActivity ≤ r.lastActivity)
        ∧ (∀ g, lookupA (buildGroupState (dedupFirst raw) entries).groups M = some g →
            1 < g.allSessions.length →
            r.isGrouped = true ∧ r.groupSize = g.allSessions.length
              ∧ r.groupSessions = g.allSessions.map SessState.id)) := by
  have hShape := dedupFirst_shape raw
  have hKey : ∀ k v, lookupA (dedupFirst raw) k = some v → v.id = k :=
    fun k v h => (hShape (k, v) (mem_of_lookupA h)).symm
  obtain ⟨hI1, hI2, hI3⟩ := buildGroupState_inv (dedupFirst raw) entries hKey
  have hsub : ∀ r : SessState, r ∈ (getSessions raw entries limit offset).sessions →
      r ∈ visibleSessions (dedupFirst raw) entries :=
    fun r hr => mem_of_mem_jsSlice hr
  constructor
  · rintro ⟨⟨rA, hrA, hidA⟩, ⟨rB, hrB, hidB⟩⟩
    obtain ⟨gA, hgA, hrepA⟩ := visible_with_marker _ entries rA M hShape (hsub rA hrA)
      (by rw [hidA]; exact hmA)
    obtain ⟨gB, hgB, hrepB⟩ := visible_with_marker _ entries rB M hShape (hsub rB hrB)
      (by rw [hidB]; exact hmB)
    have hpair : ((M, gA) : String × SessGroup) = (M, gB) :=
      pair_eq_of_nodup hI3 hgA hgB rfl
    have hgg : gA = gB := by
      injection hpair
    apply hne
    rw [← hidA, ← hidB, hrepA, hrepB, hgg]
  · intro r hr hid
    obtain ⟨gA, hgA, hrep⟩ := visible_with_marker _ entries r M hShape (hsub r hr)
      (by rw [hid]; exact hmA)
    constructor
    · intro sB hsB
      obtain ⟨g2, hg2mem, hsg2⟩ := hI2 sidB M hmB sB hsB
      have hpair : ((M, g2) : String × SessGroup) = (M, gA) :=
        pair_eq_of_nodup hI3 hg2mem hgA rfl
      have hgg : g2 = gA := by
        injection hpair
      obtain ⟨hga, hgb, hgc⟩ := hI1 (M, gA) hgA
      have hle := hgb sB (hgg ▸ hsg2)
      rw [hrep, repOf_lastActivity]
      exact hle
    · intro g hlookg hlen
      have hgmem := mem_of_lookupA hlookg
      have hpair : ((M, g) : String × SessGroup) = (M, gA) :=
        pair_eq_of_nodup hI3 hgmem hgA rfl
      have hgg : g = gA := by
        injection hpair
      subst hgg
      rw [hrep]
      unfold repOf
      rw [if_pos hlen]
      exact ⟨rfl, rfl, rfl⟩

/-- C3 witness: sessions s1 and s2 share the first-user-message marker m0;
in the concrete listing only one of them (s2, the later-active one) appears. -/
theorem C3_grouping_invariant_witness :
    ¬((∃ r ∈ (getSessions [sessRec1, sessRec2] [gEntry1, gEntry2] 5 0).sessions,
          r.id = "s1")
      ∧ (∃ r ∈ (getSessions [sessRec1, sessRec2] [gEntry1, gEntry2] 5 0).sessions,
          r.id = "s2")) :=
  (C3_grouping_invariant [sessRec1, sessRec2] [gEntry1, gEntry2] 5 0 "s1" "s2" "m0"
    (by decide) (by decide) (by decide)).1

end ClaudeCodeUI
